import Mathlib

/-!
Verification of the CalWid desktop widget backend (Rust, `src-tauri/src/`):
a shallow embedding in Lean 4 of the token lifecycle manager (`auth.rs`),
the data aggregator (`calendar.rs`, `tasks.rs`) and the snapshot cache
(`main.rs`), together with theorems settling the specification's claims.

Network I/O, the filesystem and the system clock are modelled as explicit
oracle parameters (environment records); each embedded function returns its
result together with a trace of the externally visible actions it performed,
so that properties such as "no network call happens" are statable.
-/

namespace CalWid

/-! ## Data model (`auth.rs` lines 12-37) -/

structure InstalledCredentials where
  client_id : String
  client_secret : String
  auth_uri : String
  token_uri : String
  deriving Repr, DecidableEq

structure Credentials where
  installed : InstalledCredentials
  deriving Repr, DecidableEq

/-- `Token` (`auth.rs` lines 25-30): timestamps are epoch seconds. -/
structure Token where
  access_token : String
  refresh_token : Option String
  expires_at : Option Int
  deriving Repr, DecidableEq

/-- `TokenResponse` (`auth.rs` lines 32-37): body of a successful token-endpoint reply. -/
structure TokenResponse where
  access_token : String
  refresh_token : Option String
  expires_in : Option Int
  deriving Repr, DecidableEq

/-! ## Token lifecycle manager (`auth.rs` lines 91-258)

`get_access_token` performs, in order: `load_credentials()?`, `load_token()`,
the 60-second-buffer validity check, a refresh attempt, and finally the full
interactive OAuth flow.  The externally visible actions are recorded in a
trace.  The two network interactions (the refresh POST and the whole
interactive flow with its browser round trip and code-exchange POST) and the
token-file writes are the trace elements. -/

inductive AuthAction where
  /-- HTTP POST to the token endpoint with a refresh-token grant
      (`refresh_access_token`, `auth.rs` lines 126-162). -/
  | refreshRequest
  /-- The full interactive flow: callback listener, browser, code exchange
      (`perform_oauth_flow`, `auth.rs` lines 164-258). -/
  | oauthFlow
  /-- `save_token` (`auth.rs` lines 70-76) with the given token. -/
  | saveToken (t : Token)
  deriving Repr, DecidableEq

/-- An action that touches the network. -/
def AuthAction.isNetwork : AuthAction → Bool
  | .refreshRequest => true
  | .oauthFlow => true
  | .saveToken _ => false

/-- Environment for one `get_access_token` call: outcomes of the filesystem
reads, the current clock, and the outcomes the network would produce. -/
structure AuthEnv where
  /-- Outcome of `load_credentials()` (`auth.rs` lines 52-58). -/
  credsResult : Except String Credentials
  /-- Outcome of `load_token()` (`auth.rs` lines 60-68). -/
  storedToken : Option Token
  /-- `chrono::Utc::now().timestamp()`. -/
  now : Int
  /-- Provider's reply to a refresh-token grant: error for a transport
      failure, non-success status or unparseable body; otherwise the parsed
      `TokenResponse`. -/
  refreshOutcome : Except String TokenResponse
  /-- Result of the full interactive flow (`perform_oauth_flow`): the token
      it would construct, or the error it would fail with. -/
  oauthOutcome : Except String Token

/-- The validity check of `auth.rs` lines 99-103: with `expires_at` set the
token is returned immediately iff `expires_at > now + 60`. -/
def token_still_valid (now : Int) (t : Token) : Bool :=
  match t.expires_at with
  | some expires_at => expires_at > now + 60
  | none => false

/-- The `Token` built by `refresh_access_token` from a successful response
(`auth.rs` lines 153-161): a response without `refresh_token` keeps the old
one via `.or(Some(refresh_token.to_string()))`. -/
def mkRefreshedToken (resp : TokenResponse) (old_refresh : String) (now : Int) : Token :=
  { access_token := resp.access_token
    refresh_token := resp.refresh_token.or (some old_refresh)
    expires_at := resp.expires_in.map (fun secs => now + secs) }

/-- `refresh_access_token` (`auth.rs` lines 126-162), network outcome taken
from the environment. -/
def refresh_access_token (env : AuthEnv) (refresh_token : String) : Except String Token :=
  match env.refreshOutcome with
  | .error e => .error e
  | .ok resp => .ok (mkRefreshedToken resp refresh_token env.now)

/-- The tail of `get_access_token` (`auth.rs` lines 120-123): run the full
interactive flow, save the token, return its access token. -/
def run_oauth_flow (env : AuthEnv) : Except String String × List AuthAction :=
  match env.oauthOutcome with
  | .error e => (.error e, [.oauthFlow])
  | .ok t => (.ok t.access_token, [.oauthFlow, .saveToken t])

/-- `get_access_token` (`auth.rs` lines 91-124).  Returns the result and the
trace of network/persistence actions, in program order. -/
def get_access_token (env : AuthEnv) : Except String String × List AuthAction :=
  match env.credsResult with
  | .error e => (.error e, [])
  | .ok _creds =>
    match env.storedToken with
    | some token =>
      if token_still_valid env.now token then
        (.ok token.access_token, [])
      else
        match token.refresh_token with
        | some rt =>
          match refresh_access_token env rt with
          | .ok new_token =>
            (.ok new_token.access_token, [.refreshRequest, .saveToken new_token])
          | .error _ =>
            -- "Failed to refresh token" is only logged; fall through to re-auth.
            let (r, tr) := run_oauth_flow env
            (r, .refreshRequest :: tr)
        | none => run_oauth_flow env
    | none => run_oauth_flow env

/-- No element of the trace is a network action. -/
def NoNetworkCall (tr : List AuthAction) : Prop :=
  ∀ a ∈ tr, a.isNetwork = false

instance (tr : List AuthAction) : Decidable (NoNetworkCall tr) := by
  unfold NoNetworkCall; infer_instance

/-! ## Date/time arithmetic

`calendar.rs` relies on chrono for calendar arithmetic.  Timestamps are
epoch seconds (`Int`); the chrono pieces the code uses (UTC weekday,
`%Y-%m-%d`/`%H:%M`/`%A, %d. %B` formatting) are given concrete, executable
models here.  `Int.fdiv`/`Int.emod` give the floor-division semantics of
calendar arithmetic. -/

/-- The UTC day number (days since 1970-01-01) of an epoch timestamp. -/
def epochDay (ts : Int) : Int := ts.fdiv 86400

/-- Seconds elapsed since UTC midnight at an epoch timestamp. -/
def secsOfDay (ts : Int) : Int := ts.emod 86400

/-- chrono's `weekday().num_days_from_monday()` of a UTC timestamp:
1970-01-01 was a Thursday, 3 days after a Monday. -/
def num_days_from_monday (ts : Int) : Int := (epochDay ts + 3) % 7

/-- Civil date `(year, month, day)` from a day number (standard
days-to-civil conversion for the proleptic Gregorian calendar). -/
def civilFromDays (z : Int) : Int × Int × Int :=
  let z' := z + 719468
  let era := z'.fdiv 146097
  let doe := z' - era * 146097
  let yoe := (doe - doe.fdiv 1460 + doe.fdiv 36524 - doe.fdiv 146096).fdiv 365
  let y := yoe + era * 400
  let doy := doe - (365 * yoe + yoe.fdiv 4 - yoe.fdiv 100)
  let mp := (5 * doy + 2).fdiv 153
  let d := doy - (153 * mp + 2).fdiv 5 + 1
  let m := mp + (if mp < 10 then 3 else -9)
  (y + (if m ≤ 2 then 1 else 0), m, d)

/-- Two-digit zero padding, as chrono's `%m`, `%d`, `%H`, `%M`. -/
def pad2 (n : Int) : String := if n < 10 then "0" ++ toString n else toString n

/-- `%Y-%m-%d` of the given UTC day number. -/
def format_ymd (day : Int) : String :=
  let (y, m, d) := civilFromDays day
  toString y ++ "-" ++ pad2 m ++ "-" ++ pad2 d

/-- `%H:%M` of a timestamp (within its day). -/
def format_hm (ts : Int) : String :=
  let s := secsOfDay ts
  pad2 (s.fdiv 3600) ++ ":" ++ pad2 ((s % 3600).fdiv 60)

def weekdayNames : List String :=
  ["Monday", "Tuesday", "Wednesday", "Thursday", "Friday", "Saturday", "Sunday"]

def monthNames : List String :=
  ["January", "February", "March", "April", "May", "June",
   "July", "August", "September", "October", "November", "December"]

/-- chrono's `%A, %d. %B` of a timestamp. -/
def format_long_date (ts : Int) : String :=
  let day := epochDay ts
  let (_, m, d) := civilFromDays day
  weekdayNames.getD ((day + 3) % 7).toNat "Monday" ++ ", " ++ pad2 d ++ ". " ++
    monthNames.getD (m - 1).toNat "January"

/-- The UTC instant denoted by `format_ymd day ++ "T00:00:00Z"`. -/
def utc_instant_of_day (day : Int) : Int := day * 86400

/-- Whether a year is a Gregorian leap year. -/
def isLeapYear (y : Int) : Bool := y % 4 = 0 && (y % 100 ≠ 0 || y % 400 = 0)

/-- Days in a month of a given year. -/
def daysInMonth (y m : Int) : Int :=
  if m = 2 then (if isLeapYear y then 29 else 28)
  else if m = 4 || m = 6 || m = 9 || m = 11 then 30
  else 31

/-- Decimal value of a run of ASCII digit characters. -/
def natOfDigits (cs : List Char) : Nat :=
  cs.foldl (fun acc c => 10 * acc + (c.toNat - 48)) 0

/-- Model of chrono's `NaiveDate::parse_from_str(s, "%Y-%m-%d")` for the
ASCII digit strings the provider sends: split on `-`, parse decimal fields,
validate the calendar date. -/
def parse_naive_ymd (s : String) : Option (Int × Int × Int) :=
  match s.data.splitOn '-' with
  | [ys, ms, ds] =>
    if !ys.isEmpty && !ms.isEmpty && !ds.isEmpty &&
        ys.all Char.isDigit && ms.all Char.isDigit && ds.all Char.isDigit then
      let y : Int := natOfDigits ys
      let m : Int := natOfDigits ms
      let d : Int := natOfDigits ds
      if 1 ≤ m && m ≤ 12 && 1 ≤ d && d ≤ daysInMonth y m then some (y, m, d)
      else none
    else none
  | _ => none

/-! ## Calendar data model and events fetcher (`calendar.rs`) -/

structure Calendar where
  id : String
  name : String
  color : String
  primary : Bool
  deriving Repr, DecidableEq

structure Event where
  id : String
  title : String
  date : String
  time : String
  time_range : String
  date_formatted : String
  color : String
  calendar : String
  location : String
  description : String
  is_all_day : Bool
  deriving Repr, DecidableEq

structure CalendarListEntry where
  id : String
  summary : Option String
  background_color : Option String
  primary : Option Bool
  deriving Repr, DecidableEq

structure EventDateTime where
  date_time : Option String
  date : Option String
  deriving Repr, DecidableEq

structure EventEntry where
  id : Option String
  summary : Option String
  start : Option EventDateTime
  «end» : Option EventDateTime
  location : Option String
  description : Option String
  deriving Repr, DecidableEq

/-- Externally visible actions of the two data fetchers.  The events-list
request records the query window strings it carries in its URL. -/
inductive FetchAction where
  /-- A call into `get_access_token` (the token lifecycle manager). -/
  | tokenAcquire
  /-- GET `users/me/calendarList` (pagination collapsed into one outcome). -/
  | httpCalendarList
  /-- GET `calendars/{id}/events?timeMin=..&timeMax=..` for one calendar. -/
  | httpEventsList (calendarId timeMin timeMax : String)
  /-- GET `users/@me/lists`. -/
  | httpTaskLists
  /-- GET `lists/{id}/tasks` for one allowed task list. -/
  | httpTasksList (listId : String)
  deriving Repr, DecidableEq

/-- Environment of one events fetch: successive `get_access_token`
outcomes, the network's replies, chrono's RFC-3339 parser and the local
time-zone offset (seconds east of UTC, as a function of the instant). -/
structure CalEnv where
  tokenSeq : Nat → Except String String
  calendarListOutcome : Except String (List CalendarListEntry)
  eventsFetch : String → Except String (Option (List EventEntry))
  parse_rfc3339 : String → Option Int
  localOffsetAt : Int → Int
  now : Int

/-- `get_calendars` (`calendar.rs` lines 69-117): acquire a token, list the
calendars (the `nextPageToken` loop collapsed into one aggregate outcome),
and normalize the entries with the source's defaults.  `i` is the number of
token acquisitions performed before this call. -/
def get_calendars (env : CalEnv) (i : Nat) :
    Except String (List Calendar) × List FetchAction :=
  match env.tokenSeq i with
  | .error e => (.error e, [.tokenAcquire])
  | .ok _access_token =>
    match env.calendarListOutcome with
    | .error e => (.error e, [.tokenAcquire, .httpCalendarList])
    | .ok items =>
      (.ok (items.map (fun item =>
        { id := item.id
          name := item.summary.getD "Unnamed"
          color := item.background_color.getD "#3b82f6"
          primary := item.primary.getD false })),
       [.tokenAcquire, .httpCalendarList])

/-- `timeMin` of the events query (`calendar.rs` lines 126-129): `now`
minus `num_days_from_monday` days, formatted `%Y-%m-%dT00:00:00Z` — all in
UTC (`Utc::now()`). -/
def start_of_week_string (now : Int) : String :=
  let days_since_monday := num_days_from_monday now
  let start_of_week := now - days_since_monday * 86400
  format_ymd (epochDay start_of_week) ++ "T00:00:00Z"

/-- `timeMax` of the events query (`calendar.rs` line 131): `now + days`
days, formatted `%Y-%m-%dT23:59:59Z` in UTC. -/
def time_max_string (now : Int) (days : Int) : String :=
  format_ymd (epochDay (now + days * 86400)) ++ "T23:59:59Z"

/-- Modelled from the spec: "the beginning of the current week (Monday
00:00 local)" as an instant, for a local zone at a fixed offset (seconds
east of UTC): the instant whose local wall-clock reading is 00:00 on the
Monday of the local date's week. -/
def spec_local_week_start (now offset : Int) : Int :=
  let localDay := epochDay (now + offset)
  let monday := localDay - num_days_from_monday (now + offset)
  monday * 86400 - offset

/-- Day number from a civil date (standard civil-to-days conversion,
inverse of `civilFromDays`). -/
def daysFromCivil (y m d : Int) : Int :=
  let y' := if m ≤ 2 then y - 1 else y
  let era := y'.fdiv 400
  let yoe := y' - era * 400
  let mp := (m + 9) % 12
  let doy := (153 * mp + 2).fdiv 5 + d - 1
  let doe := yoe * 365 + yoe.fdiv 4 - yoe.fdiv 100 + doy
  era * 146097 + doe - 719468

/-- `format_date_string` (`calendar.rs` lines 255-261): parse `%Y-%m-%d`
and reformat as `%A, %d. %B`, falling back to the input string. -/
def format_date_string (date_str : String) : String :=
  match parse_naive_ymd date_str with
  | some (y, m, d) =>
    let day := daysFromCivil y m d
    weekdayNames.getD ((day + 3) % 7).toNat "Monday" ++ ", " ++ pad2 d ++ ". " ++
      monthNames.getD (m - 1).toNat "January"
  | none => date_str

/-- `parse_event_time` (`calendar.rs` lines 210-253). -/
def parse_event_time (env : CalEnv) (event : EventEntry) :
    String × String × String × String × Bool :=
  let fallback :=
    (format_ymd (epochDay env.now), "All day", "All day", "Unknown", true)
  match event.start with
  | none => fallback
  | some start =>
    match start.date with
    | some date =>
      (date, "All day", "All day", format_date_string date, true)
    | none =>
      match start.date_time with
      | none => fallback
      | some dt_str =>
        match env.parse_rfc3339 dt_str with
        | none => fallback
        | some ts =>
          let local_ts := ts + env.localOffsetAt ts
          let date := format_ymd (epochDay local_ts)
          let time := format_hm local_ts
          let date_formatted := format_long_date local_ts
          let time_range :=
            match event.«end» with
            | none => time
            | some e =>
              match e.date_time with
              | none => time
              | some end_dt_str =>
                match env.parse_rfc3339 end_dt_str with
                | none => time
                | some end_ts =>
                  let end_local := end_ts + env.localOffsetAt end_ts
                  format_hm local_ts ++ " - " ++ format_hm end_local
          (date, time, time_range, date_formatted, false)

/-- The comparator of `all_events.sort_by` (`calendar.rs` lines 192-205):
date first, then all-day before timed, then time. -/
def eventCmp (a b : Event) : Ordering :=
  let date_cmp := compare a.date b.date
  if date_cmp ≠ Ordering.eq then date_cmp
  else if a.is_all_day && !b.is_all_day then Ordering.lt
  else if !a.is_all_day && b.is_all_day then Ordering.gt
  else compare a.time b.time

/-- The non-strict order induced by the comparator (`sort_by` orders so
that no adjacent pair compares `Greater`). -/
def EventLe (a b : Event) : Prop := eventCmp a b ≠ Ordering.gt

instance : DecidableRel EventLe := fun a b => by
  unfold EventLe; infer_instance

/-- Rust's `slice::sort_by` is a stable sort by the comparator; with the
total preorder `EventLe` its output is the unique stable sorted
rearrangement, modelled by insertion sort. -/
def sortEvents (l : List Event) : List Event := l.insertionSort EventLe

/-- The ordering the spec describes: "date ascending, then all-day events
before timed events, then by time ascending" (dates and times compared as
their zero-padded string representations, as the code stores them). -/
def SpecEventOrder (a b : Event) : Prop :=
  a.date < b.date ∨
    (a.date = b.date ∧
      ((a.is_all_day = true ∧ b.is_all_day = false) ∨
        (a.is_all_day = b.is_all_day ∧ a.time ≤ b.time)))

/-- `get_events` (`calendar.rs` lines 119-208): token, calendar list, one
events query per calendar (failures of any kind skip that calendar), event
normalization, final sort. -/
def get_events (env : CalEnv) (days : Int) :
    Except String (List Event) × List FetchAction :=
  match env.tokenSeq 0 with
  | .error e => (.error e, [.tokenAcquire])
  | .ok _access_token =>
    match get_calendars env 1 with
    | (.error e, acts) => (.error e, .tokenAcquire :: acts)
    | (.ok calendars, acts) =>
      let timeMin := start_of_week_string env.now
      let timeMax := time_max_string env.now days
      let all_events := calendars.flatMap (fun calendar =>
        match env.eventsFetch calendar.id with
        | .error _ => []
        | .ok none => []
        | .ok (some items) =>
          items.map (fun item =>
            let (date, time, time_range, date_formatted, is_all_day) :=
              parse_event_time env item
            { id := item.id.getD ""
              title := item.summary.getD "(No title)"
              date := date
              time := time
              time_range := time_range
              date_formatted := date_formatted
              color := calendar.color
              calendar := calendar.name
              location := item.location.getD ""
              description := item.description.getD ""
              is_all_day := is_all_day : Event }))
      let evActs := calendars.map (fun c =>
        FetchAction.httpEventsList c.id timeMin timeMax)
      (.ok (sortEvents all_events), .tokenAcquire :: acts ++ evActs)

/-! ## Tasks fetcher (`tasks.rs`) -/

structure Task where
  id : String
  title : String
  completed : Bool
  tasklist_id : String
  deriving Repr, DecidableEq

structure TaskListEntry where
  id : String
  title : Option String
  deriving Repr, DecidableEq

structure TaskEntry where
  id : Option String
  title : Option String
  status : Option String
  deriving Repr, DecidableEq

/-- `ALLOWED_LISTS` (`tasks.rs` line 8). -/
def ALLOWED_LISTS : List String := ["I dag", "Min huskeliste"]

/-- Environment of one tasks fetch. -/
structure TasksEnv where
  tokenResult : Except String String
  taskListsOutcome : Except String (Option (List TaskListEntry))
  tasksFetch : String → Except String (Option (List TaskEntry))

/-- Body of the per-list loop of `get_tasks` (`tasks.rs` lines 67-118):
non-allowed lists are skipped entirely; any fetch/status/parse failure
skips the list; blank-titled items are dropped; `completed` is
`status == "completed"`. -/
def process_list (env : TasksEnv) (list : TaskListEntry) : List Task :=
  let list_title := list.title.getD ""
  if !ALLOWED_LISTS.contains list_title then []
  else
    match env.tasksFetch list.id with
    | .error _ => []
    | .ok none => []
    | .ok (some items) =>
      items.filterMap (fun item =>
        let title := item.title.getD ""
        if title = "" then none
        else some
          { id := item.id.getD ""
            title := title
            completed := item.status == some "completed"
            tasklist_id := list.id : Task })

/-- `get_tasks` (`tasks.rs` lines 41-125): token, task-list listing, the
per-list loop, and the final `retain(!completed)`. -/
def get_tasks (env : TasksEnv) : Except String (List Task) × List FetchAction :=
  match env.tokenResult with
  | .error e => (.error e, [.tokenAcquire])
  | .ok _access_token =>
    match env.taskListsOutcome with
    | .error e => (.error e, [.tokenAcquire, .httpTaskLists])
    | .ok itemsOpt =>
      let lists := match itemsOpt with
        | none => []
        | some ls => ls
      let all_tasks := lists.flatMap (process_list env)
      let acts := (lists.filter
          (fun l => ALLOWED_LISTS.contains (l.title.getD ""))).map
        (fun l => FetchAction.httpTasksList l.id)
      (.ok (all_tasks.filter (fun t => !t.completed)),
       [.tokenAcquire, .httpTaskLists] ++ acts)

/-! ## Snapshot cache (`main.rs`) -/

structure CachedData where
  events : List Event
  tasks : List Task
  deriving Repr, DecidableEq

/-- Result of one `get_data` call: the command's return value, the
in-memory cache afterwards, and the `save_cache` disk writes performed. -/
structure GetDataResult where
  result : Except String CachedData
  newCache : Option CachedData
  diskWrites : List CachedData
  deriving Repr

/-- `get_data` (`main.rs` lines 49-74), with the two fetcher outcomes and
the current in-memory cache as inputs.  Rust's or-pattern
`(Err(e), _) | (_, Err(e))` tries the first alternative first, so the
events error wins when both fail. -/
def get_data (events_result : Except String (List Event))
    (tasks_result : Except String (List Task))
    (cache : Option CachedData) : GetDataResult :=
  match events_result, tasks_result with
  | .ok events, .ok tasks =>
    let data : CachedData := { events := events, tasks := tasks }
    { result := .ok data, newCache := some data, diskWrites := [data] }
  | .error e, _ =>
    match cache with
    | some cached => { result := .ok cached, newCache := some cached, diskWrites := [] }
    | none => { result := .error e, newCache := none, diskWrites := [] }
  | .ok _, .error e =>
    match cache with
    | some cached => { result := .ok cached, newCache := some cached, diskWrites := [] }
    | none => { result := .error e, newCache := none, diskWrites := [] }

/-- The full command: `get_data` wired to the two fetchers
(`main.rs` lines 52-53 call `get_events(60)` and `get_tasks()`). -/
def get_data_full (cenv : CalEnv) (tenv : TasksEnv) (cache : Option CachedData) :
    GetDataResult :=
  get_data (get_events cenv 60).1 (get_tasks tenv).1 cache

/-! ## JSON persistence model (`save_token`, `auth.rs` lines 70-76;
`save_cache`, `main.rs` lines 42-47)

Both writers use `serde_json::to_string_pretty` followed by a plain
`fs::write` (truncate, then write).  A process killed mid-write therefore
leaves some strict prefix of the serialized bytes on disk (an interrupted
multi-byte UTF-8 character already fails the loader's UTF-8 read, so
cutting at character boundaries is the interesting case).  The loaders
(`load_token`, `auth.rs` lines 60-68; `load_cache`, `main.rs` lines 32-40)
call `serde_json::from_str(..).ok()`, which returns `None` unless the file
is valid JSON of the right shape.  `serde_json` is modelled by a fueled
recursive-descent JSON parser (deliberately permissive — it accepts a
superset of JSON, so a text it rejects is rejected by serde too) and by
the exact pretty-printed serializer format.  A character-level scanner
tracking brace depth and string state ties the two sides together. -/

structure ScanSt where
  depth : Int
  inStr : Bool
  esc : Bool
  deriving Repr, DecidableEq

def scanChar (st : ScanSt) (c : Char) : ScanSt :=
  if st.inStr then
    if st.esc then { st with esc := false }
    else if c = '\\' then { st with esc := true }
    else if c = '"' then { st with inStr := false }
    else st
  else
    if c = '"' then { st with inStr := true }
    else if c = '{' ∨ c = '[' then { st with depth := st.depth + 1 }
    else if c = '}' ∨ c = ']' then { st with depth := st.depth - 1 }
    else st

def scan (st : ScanSt) (l : List Char) : ScanSt := l.foldl scanChar st

def scanLow (st : ScanSt) : List Char → Int
  | [] => st.depth
  | c :: rest => min st.depth (scanLow (scanChar st c) rest)

/-- Balanced segment: scanning from a clean state at any depth adds `k` to
the depth and returns to a clean state. -/
def Bal (u : List Char) (k : Int) : Prop :=
  ∀ d : Int, scan ⟨d, false, false⟩ u = ⟨d + k, false, false⟩

/-- Characters that the scanner ignores outside of strings. -/
def plainChar (c : Char) : Bool :=
  !(c = '"' || c = '{' || c = '[' || c = '}' || c = ']')

/-- A scan-closed string segment: from inside a string it consumes through
the closing quote. -/
def StrClose (u : List Char) : Prop :=
  ∀ d : Int, scan ⟨d, true, false⟩ u = ⟨d, false, false⟩

/-- A neutral segment: scanned from any clean state it returns to that
state and never dips below the starting depth. -/
def Neutral (l : List Char) : Prop :=
  (∀ d : Int, scan ⟨d, false, false⟩ l = ⟨d, false, false⟩) ∧
  (∀ d : Int, scanLow ⟨d, false, false⟩ l ≥ d)

/-- A neutral in-string segment: scanned from inside a string (no pending
escape) it stays inside the string at the same depth. -/
def NeutralStr (l : List Char) : Prop :=
  (∀ d : Int, scan ⟨d, true, false⟩ l = ⟨d, true, false⟩) ∧
  (∀ d : Int, scanLow ⟨d, true, false⟩ l ≥ d)

inductive Json where
  | null
  | bool (b : Bool)
  | num (raw : List Char)
  | str (raw : List Char)
  | arr (elems : List Json)
  | obj (fields : List (List Char × Json))

def skipWs : List Char → List Char
  | [] => []
  | c :: rest =>
    if c = ' ' ∨ c = '\n' ∨ c = '\t' ∨ c = '\r' then skipWs rest else c :: rest

def parseStringBody : List Char → Option (List Char × List Char)
  | [] => none
  | c :: rest =>
    if c = '"' then some ([], rest)
    else if c = '\\' then
      match rest with
      | [] => none
      | e :: rest2 =>
        match parseStringBody rest2 with
        | some (s, r) => some (c :: e :: s, r)
        | none => none
    else
      match parseStringBody rest with
      | some (s, r) => some (c :: s, r)
      | none => none

def isNumChar (c : Char) : Bool :=
  c.isDigit || c = '.' || c = 'e' || c = 'E' || c = '+' || c = '-'

def spanNum : List Char → List Char × List Char
  | [] => ([], [])
  | c :: rest =>
    if isNumChar c then
      let (a, b) := spanNum rest
      (c :: a, b)
    else ([], c :: rest)

def parseNumber : List Char → Option (Json × List Char)
  | [] => none
  | c :: rest =>
    if c = '-' then
      match rest with
      | [] => none
      | c2 :: _ =>
        if c2.isDigit then
          let (a, b) := spanNum rest
          some (.num (c :: a), b)
        else none
    else if c.isDigit then
      let (a, b) := spanNum (c :: rest)
      some (.num a, b)
    else none

mutual

def parseValue : Nat → List Char → Option (Json × List Char)
  | 0, _ => none
  | fuel + 1, cs =>
    match skipWs cs with
    | [] => none
    | c :: rest =>
      if c = 'n' then
        match rest with
        | 'u' :: 'l' :: 'l' :: r => some (.null, r)
        | _ => none
      else if c = 't' then
        match rest with
        | 'r' :: 'u' :: 'e' :: r => some (.bool true, r)
        | _ => none
      else if c = 'f' then
        match rest with
        | 'a' :: 'l' :: 's' :: 'e' :: r => some (.bool false, r)
        | _ => none
      else if c = '"' then
        match parseStringBody rest with
        | some (s, r) => some (.str s, r)
        | none => none
      else if c = '{' then
        match skipWs rest with
        | '}' :: r2 => some (.obj [], r2)
        | _ =>
          match parseMembers fuel (skipWs rest) with
          | some (f, r) => some (.obj f, r)
          | none => none
      else if c = '[' then
        match skipWs rest with
        | ']' :: r2 => some (.arr [], r2)
        | _ =>
          match parseElems fuel rest with
          | some (es, r) => some (.arr es, r)
          | none => none
      else parseNumber (c :: rest)

def parseMembers : Nat → List Char → Option (List (List Char × Json) × List Char)
  | 0, _ => none
  | fuel + 1, cs =>
    match cs with
    | '"' :: rest =>
      match parseStringBody rest with
      | none => none
      | some (key, r1) =>
        match skipWs r1 with
        | ':' :: r2 =>
          match parseValue fuel r2 with
          | none => none
          | some (v, r3) =>
            match skipWs r3 with
            | ',' :: r4 =>
              match parseMembers fuel (skipWs r4) with
              | some (fs, r5) => some ((key, v) :: fs, r5)
              | none => none
            | '}' :: r4 => some ([(key, v)], r4)
            | _ => none
        | _ => none
    | _ => none

def parseElems : Nat → List Char → Option (List Json × List Char)
  | 0, _ => none
  | fuel + 1, cs =>
    match parseValue fuel cs with
    | none => none
    | some (v, r1) =>
      match skipWs r1 with
      | ',' :: r2 =>
        match parseElems fuel r2 with
        | some (es, r3) => some (v :: es, r3)
        | none => none
      | ']' :: r2 => some ([v], r2)
      | _ => none

end

def parseJson (s : List Char) : Option Json :=
  match parseValue (s.length + 1) s with
  | some (j, rest) => if skipWs rest = [] then some j else none
  | none => none

def hexDigitChar (n : Nat) : Char := "0123456789abcdef".data.getD n '0'

def escapeJsonChar (c : Char) : List Char :=
  if c = '"' then ['\\', '"']
  else if c = '\\' then ['\\', '\\']
  else if c.toNat < 32 then
    if c = Char.ofNat 8 then ['\\', 'b']
    else if c = Char.ofNat 9 then ['\\', 't']
    else if c = Char.ofNat 10 then ['\\', 'n']
    else if c = Char.ofNat 12 then ['\\', 'f']
    else if c = Char.ofNat 13 then ['\\', 'r']
    else ['\\', 'u', '0', '0', hexDigitChar (c.toNat / 16), hexDigitChar (c.toNat % 16)]
  else [c]

def escapeJson (l : List Char) : List Char := l.flatMap escapeJsonChar

def jstr (s : String) : List Char := '"' :: escapeJson s.data ++ ['"']

def jkey (name : String) : List Char := '"' :: name.data ++ ['"', ':', ' ']

def natDigitsAux : Nat → Nat → List Char
  | 0, _ => []
  | fuel + 1, n =>
    if n < 10 then [Char.ofNat (48 + n)]
    else natDigitsAux fuel (n / 10) ++ [Char.ofNat (48 + n % 10)]

def natChars (n : Nat) : List Char := natDigitsAux (n + 1) n

def intChars (n : Int) : List Char :=
  if n < 0 then '-' :: natChars n.natAbs else natChars n.toNat

/-- The serde pretty-printed body of the token file, between the braces. -/
def tokenInner (t : Token) : List Char :=
  "\n  ".data ++ jkey "access_token" ++ jstr t.access_token ++
  ",\n  ".data ++ jkey "refresh_token" ++
    (match t.refresh_token with
     | some r => jstr r
     | none => "null".data) ++
  ",\n  ".data ++ jkey "expires_at" ++
    (match t.expires_at with
     | some n => intChars n
     | none => "null".data) ++
  ['\n']

/-- `serde_json::to_string_pretty::<Token>` (written by `save_token`). -/
def serializeToken (t : Token) : List Char := '{' :: tokenInner t ++ ['}']

/-- One event object inside the `events` array (element indent 4,
field indent 6). -/
def serializeEvent (e : Event) : List Char :=
  '{' :: ("\n      ".data ++ jkey "id" ++ jstr e.id ++
    ",\n      ".data ++ jkey "title" ++ jstr e.title ++
    ",\n      ".data ++ jkey "date" ++ jstr e.date ++
    ",\n      ".data ++ jkey "time" ++ jstr e.time ++
    ",\n      ".data ++ jkey "time_range" ++ jstr e.time_range ++
    ",\n      ".data ++ jkey "date_formatted" ++ jstr e.date_formatted ++
    ",\n      ".data ++ jkey "color" ++ jstr e.color ++
    ",\n      ".data ++ jkey "calendar" ++ jstr e.calendar ++
    ",\n      ".data ++ jkey "location" ++ jstr e.location ++
    ",\n      ".data ++ jkey "description" ++ jstr e.description ++
    ",\n      ".data ++ jkey "is_all_day" ++
      (if e.is_all_day then "true".data else "false".data) ++
    "\n    ".data) ++ ['}']

/-- One task object inside the `tasks` array. -/
def serializeTask (t : Task) : List Char :=
  '{' :: ("\n      ".data ++ jkey "id" ++ jstr t.id ++
    ",\n      ".data ++ jkey "title" ++ jstr t.title ++
    ",\n      ".data ++ jkey "completed" ++
      (if t.completed then "true".data else "false".data) ++
    ",\n      ".data ++ jkey "tasklist_id" ++ jstr t.tasklist_id ++
    "\n    ".data) ++ ['}']

/-- Array elements joined by serde's element separator at indent 4. -/
def joinIndent : List (List Char) → List Char
  | [] => []
  | [x] => x
  | x :: rest => x ++ ",\n    ".data ++ joinIndent rest

/-- A pretty-printed array at field indent 2. -/
def serializeArray (items : List (List Char)) : List Char :=
  match items with
  | [] => ['[', ']']
  | _ => '[' :: ("\n    ".data ++ joinIndent items ++ "\n  ".data) ++ [']']

/-- The serde pretty-printed body of the cache file, between the braces. -/
def cacheInner (d : CachedData) : List Char :=
  "\n  ".data ++ jkey "events" ++ serializeArray (d.events.map serializeEvent) ++
  ",\n  ".data ++ jkey "tasks" ++ serializeArray (d.tasks.map serializeTask) ++
  ['\n']

/-- `serde_json::to_string_pretty::<CachedData>` (written by `save_cache`). -/
def serializeCachedData (d : CachedData) : List Char :=
  '{' :: cacheInner d ++ ['}']

/-! ### Concrete environments used as witnesses -/

/-- A concrete token file content for witnesses. -/
def exTokenFile : Token := ⟨"tok-abc", some "rt", some 3600⟩

/-- A concrete cache file content for witnesses. -/
def exCacheFile : CachedData :=
  ⟨[⟨"e3", "Party", "2024-06-09", "23:00", "23:00", "Sunday, 09. June",
     "#ff0000", "Personal", "", "", false⟩],
   [⟨"t1", "Buy milk", false, "list1"⟩]⟩

def exCreds : Credentials :=
  ⟨⟨"client", "secret", "https://accounts/auth", "https://accounts/token"⟩⟩

/-- Credentials load fine; stored token expires at 61 with `now = 0`. -/
def exEnvFresh : AuthEnv :=
  { credsResult := .ok exCreds
    storedToken := some ⟨"cached-tok", none, some 61⟩
    now := 0
    refreshOutcome := .error "refresh endpoint down"
    oauthOutcome := .error "browser unavailable" }

/-- Credentials file unreadable; an unexpired token is persisted. -/
def exEnvNoCreds : AuthEnv :=
  { credsResult := .error "Failed to read credentials.json: not found"
    storedToken := some ⟨"cached-tok", some "rt", some 1000000⟩
    now := 0
    refreshOutcome := .error "unused"
    oauthOutcome := .error "unused" }

/-- Expired stored token carrying a refresh token; the refresh grant
succeeds with a response that omits `refresh_token`. -/
def exEnvRefresh : AuthEnv :=
  { credsResult := .ok exCreds
    storedToken := some ⟨"old-tok", some "old-rt", some 10⟩
    now := 0
    refreshOutcome := .ok ⟨"new-tok", none, some 3600⟩
    oauthOutcome := .error "unused" }

/-! ## PKCE generator (`auth.rs` lines 78-89)

The source calls the base64 crate's `URL_SAFE_NO_PAD` engine and the sha2
crate's `Sha256`; both library functions are modelled concretely below:
base64url without padding, and FIPS 180-4 SHA-256 over `Nat` words reduced
mod `2^32`. -/

/-- The base64url alphabet (RFC 4648 §5). -/
def b64urlAlphabet : List Char :=
  "ABCDEFGHIJKLMNOPQRSTUVWXYZabcdefghijklmnopqrstuvwxyz0123456789-_".data

def b64urlChar (n : Nat) : Char := b64urlAlphabet.getD n 'A'

/-- base64url encoding without padding of a byte sequence (division and
remainder express the 6-bit regrouping of `URL_SAFE_NO_PAD`). -/
def b64urlEncode : List Nat → List Char
  | [] => []
  | [a] => [b64urlChar (a / 4), b64urlChar (a % 4 * 16)]
  | [a, b] =>
    [b64urlChar (a / 4), b64urlChar (a % 4 * 16 + b / 16), b64urlChar (b % 16 * 4)]
  | a :: b :: c :: rest =>
    b64urlChar (a / 4) :: b64urlChar (a % 4 * 16 + b / 16) ::
      b64urlChar (b % 16 * 4 + c / 64) :: b64urlChar (c % 64) :: b64urlEncode rest

def mod32 (n : Nat) : Nat := n % 4294967296

/-- Right rotation of a 32-bit word. -/
def rotr (x n : Nat) : Nat := mod32 (x / 2 ^ n + x % 2 ^ n * 2 ^ (32 - n))

def bigSigma0 (a : Nat) : Nat := rotr a 2 ^^^ rotr a 13 ^^^ rotr a 22

def bigSigma1 (e : Nat) : Nat := rotr e 6 ^^^ rotr e 11 ^^^ rotr e 25

def smallSigma0 (x : Nat) : Nat := rotr x 7 ^^^ rotr x 18 ^^^ x / 2 ^ 3

def smallSigma1 (x : Nat) : Nat := rotr x 17 ^^^ rotr x 19 ^^^ x / 2 ^ 10

def chFn (e f g : Nat) : Nat := (e &&& f) ^^^ ((4294967295 - e) &&& g)

def majFn (a b c : Nat) : Nat := (a &&& b) ^^^ (a &&& c) ^^^ (b &&& c)

def sha256K : List Nat :=
  [1116352408, 1899447441, 3049323471, 3921009573,
   961987163, 1508970993, 2453635748, 2870763221,
   3624381080, 310598401, 607225278, 1426881987,
   1925078388, 2162078206, 2614888103, 3248222580,
   3835390401, 4022224774, 264347078, 604807628,
   770255983, 1249150122, 1555081692, 1996064986,
   2554220882, 2821834349, 2952996808, 3210313671,
   3336571891, 3584528711, 113926993, 338241895,
   666307205, 773529912, 1294757372, 1396182291,
   1695183700, 1986661051, 2177026350, 2456956037,
   2730485921, 2820302411, 3259730800, 3345764771,
   3516065817, 3600352804, 4094571909, 275423344,
   430227734, 506948616, 659060556, 883997877,
   958139571, 1322822218, 1537002063, 1747873779,
   1955562222, 2024104815, 2227730452, 2361852424,
   2428436474, 2756734187, 3204031479, 3329325298]

def sha256H0 : List Nat :=
  [1779033703, 3144134277, 1013904242, 2773480762,
   1359893119, 2600822924, 528734635, 1541459225]

/-- Big-endian bytes of `n`, `w` bytes wide. -/
def beBytes : Nat → Nat → List Nat
  | 0, _ => []
  | w + 1, n => beBytes w (n / 256) ++ [n % 256]

/-- SHA-256 message padding: `0x80`, zeros to 56 mod 64, 8-byte big-endian
bit length. -/
def sha256Pad (msg : List Nat) : List Nat :=
  let len := msg.length
  let k := (119 - len % 64) % 64
  msg ++ [128] ++ List.replicate k 0 ++ beBytes 8 (8 * len)

def bytesToWords : List Nat → List Nat
  | a :: b :: c :: d :: rest =>
    (((a * 256 + b) * 256 + c) * 256 + d) :: bytesToWords rest
  | _ => []

def wordChunks16 : List Nat → List (List Nat)
  | w0 :: w1 :: w2 :: w3 :: w4 :: w5 :: w6 :: w7 ::
    w8 :: w9 :: w10 :: w11 :: w12 :: w13 :: w14 :: w15 :: rest =>
    [w0, w1, w2, w3, w4, w5, w6, w7, w8, w9, w10, w11, w12, w13, w14, w15] ::
      wordChunks16 rest
  | _ => []

/-- Extend 16 schedule words to 64, carrying the reversed schedule. -/
def extendSchedule : Nat → List Nat → List Nat
  | 0, rev => rev.reverse
  | fuel + 1, rev =>
    let w2 := rev.getD 1 0
    let w7 := rev.getD 6 0
    let w15 := rev.getD 14 0
    let w16 := rev.getD 15 0
    extendSchedule fuel
      (mod32 (w16 + smallSigma0 w15 + w7 + smallSigma1 w2) :: rev)

def schedule (ws : List Nat) : List Nat := extendSchedule 48 ws.reverse

/-- The eight working variables of the compression function. -/
structure Hash8 where
  a : Nat
  b : Nat
  c : Nat
  d : Nat
  e : Nat
  f : Nat
  g : Nat
  h : Nat

def compressRound (st : Hash8) (kw : Nat × Nat) : Hash8 :=
  let t1 := mod32 (st.h + bigSigma1 st.e + chFn st.e st.f st.g + kw.1 + kw.2)
  let t2 := mod32 (bigSigma0 st.a + majFn st.a st.b st.c)
  ⟨mod32 (t1 + t2), st.a, st.b, st.c, mod32 (st.d + t1), st.e, st.f, st.g⟩

def compressBlock (hs : List Nat) (block : List Nat) : List Nat :=
  let ws := schedule block
  let st0 : Hash8 :=
    ⟨hs.getD 0 0, hs.getD 1 0, hs.getD 2 0, hs.getD 3 0,
     hs.getD 4 0, hs.getD 5 0, hs.getD 6 0, hs.getD 7 0⟩
  let st := (sha256K.zip ws).foldl compressRound st0
  [mod32 (hs.getD 0 0 + st.a), mod32 (hs.getD 1 0 + st.b),
   mod32 (hs.getD 2 0 + st.c), mod32 (hs.getD 3 0 + st.d),
   mod32 (hs.getD 4 0 + st.e), mod32 (hs.getD 5 0 + st.f),
   mod32 (hs.getD 6 0 + st.g), mod32 (hs.getD 7 0 + st.h)]

def wordBytes (w : Nat) : List Nat :=
  [w / 16777216 % 256, w / 65536 % 256, w / 256 % 256, w % 256]

/-- SHA-256 digest (32 bytes) of a byte sequence. -/
def sha256 (msg : List Nat) : List Nat :=
  ((wordChunks16 (bytesToWords (sha256Pad msg))).foldl compressBlock
    sha256H0).flatMap wordBytes

/-- UTF-8 encoding of one character (`str::as_bytes` is UTF-8). -/
def utf8EncodeChar (c : Char) : List Nat :=
  let n := c.toNat
  if n < 128 then [n]
  else if n < 2048 then [192 + n / 64, 128 + n % 64]
  else if n < 65536 then [224 + n / 4096, 128 + n / 64 % 64, 128 + n % 64]
  else [240 + n / 262144, 128 + n / 4096 % 64, 128 + n / 64 % 64, 128 + n % 64]

/-- `str::as_bytes` of a string. -/
def strBytes (s : String) : List Nat := s.data.flatMap utf8EncodeChar

/-- `generate_code_verifier` (`auth.rs` lines 78-82): 32 bytes drawn from
the thread RNG (an oracle here), base64url-encoded without padding. -/
def generate_code_verifier (rng : Nat → Fin 256) : String :=
  let bytes : List Nat := (List.range 32).map (fun i => (rng i).val)
  String.mk (b64urlEncode bytes)

/-- `generate_code_challenge` (`auth.rs` lines 84-89): SHA-256 of the
verifier's bytes, base64url-encoded without padding. -/
def generate_code_challenge (verifier : String) : String :=
  String.mk (b64urlEncode (sha256 (strBytes verifier)))

/-- The PKCE pair as constructed at `auth.rs` lines 165-166. -/
def pkce_generate (rng : Nat → Fin 256) : String × String :=
  (generate_code_verifier rng,
   generate_code_challenge (generate_code_verifier rng))

/-- Number of `get_access_token` invocations recorded in a fetch trace. -/
def countTokenAcquires : List FetchAction → Nat
  | [] => 0
  | a :: rest =>
    (if a = FetchAction.tokenAcquire then 1 else 0) + countTokenAcquires rest

/-- A tasks environment with one allowed and one disallowed list; the
allowed list contains a titled incomplete task, a blank-titled task and a
completed task. -/
def exTasksEnv : TasksEnv :=
  { tokenResult := .ok "tok"
    taskListsOutcome := .ok (some
      [⟨"list1", some "I dag"⟩, ⟨"list2", some "Andre"⟩])
    tasksFetch := fun id =>
      if id = "list1" then
        .ok (some
          [⟨some "t1", some "Buy milk", some "needsAction"⟩,
           ⟨some "t2", some "", some "needsAction"⟩,
           ⟨some "t3", some "Done task", some "completed"⟩])
      else .ok (some [⟨some "x1", some "Hidden task", some "needsAction"⟩]) }

/-- A calendar environment realizing the spec's ordering scenario: one
calendar whose events arrive as (all-day 2024-06-10, timed
2024-06-10T09:00, timed 2024-06-09T23:00), with UTC as the local zone. -/
def exCalEnv : CalEnv :=
  { tokenSeq := fun _ => .ok "tok"
    calendarListOutcome :=
      .ok [⟨"cal1", some "Personal", some "#ff0000", some true⟩]
    eventsFetch := fun _ =>
      .ok (some
        [⟨some "e1", some "Holiday", some ⟨none, some "2024-06-10"⟩,
          some ⟨none, some "2024-06-11"⟩, none, none⟩,
         ⟨some "e2", some "Standup", some ⟨some "2024-06-10T09:00:00Z", none⟩,
          some ⟨some "2024-06-10T09:30:00Z", none⟩, none, none⟩,
         ⟨some "e3", some "Party", some ⟨some "2024-06-09T23:00:00Z", none⟩,
          none, none, none⟩])
    parse_rfc3339 := fun s =>
      if s = "2024-06-10T09:00:00Z" then some 1718010000
      else if s = "2024-06-10T09:30:00Z" then some 1718011800
      else if s = "2024-06-09T23:00:00Z" then some 1717974000
      else none
    localOffsetAt := fun _ => 0
    now := 1718186400 }

/-- The normalized timed event of 2024-06-09T23:00. -/
def exEvSun : Event :=
  ⟨"e3", "Party", "2024-06-09", "23:00", "23:00", "Sunday, 09. June",
   "#ff0000", "Personal", "", "", false⟩

/-- The normalized all-day event of 2024-06-10. -/
def exEvMonAllDay : Event :=
  ⟨"e1", "Holiday", "2024-06-10", "All day", "All day", "Monday, 10. June",
   "#ff0000", "Personal", "", "", true⟩

/-- A degenerate RNG for witnesses: every drawn byte is zero. -/
def exRng : Nat → Fin 256 := fun _ => 0

/-- The normalized timed event of 2024-06-10T09:00. -/
def exEvMonTimed : Event :=
  ⟨"e2", "Standup", "2024-06-10", "09:00", "09:00 - 09:30", "Monday, 10. June",
   "#ff0000", "Personal", "", "", false⟩

/-! ## Theorems: token lifecycle -/

/-- Valid-token fast path (`auth.rs` lines 95-103). -/
theorem get_access_token_of_valid (env : AuthEnv) (c : Credentials) (token : Token)
    (hc : env.credsResult = .ok c) (ht : env.storedToken = some token)
    (hv : token_still_valid env.now token = true) :
    get_access_token env = (.ok token.access_token, []) := by
  simp only [get_access_token, hc, ht, hv, if_true]

/-- Successful-refresh path (`auth.rs` lines 105-111). -/
theorem get_access_token_of_refresh (env : AuthEnv) (c : Credentials) (token : Token)
    (rt : String) (resp : TokenResponse)
    (hc : env.credsResult = .ok c) (ht : env.storedToken = some token)
    (hv : token_still_valid env.now token = false)
    (hr : token.refresh_token = some rt)
    (ho : env.refreshOutcome = .ok resp) :
    get_access_token env =
      (.ok (mkRefreshedToken resp rt env.now).access_token,
       [.refreshRequest, .saveToken (mkRefreshedToken resp rt env.now)]) := by
  simp only [get_access_token, hc, ht, hv, hr, refresh_access_token, ho,
    Bool.false_eq_true, if_false]

/-- When the stored token fails the buffer check, the call performs a
network action: a refresh request or the full interactive flow. -/
theorem get_access_token_expired_network (env : AuthEnv) (c : Credentials) (token : Token)
    (hc : env.credsResult = .ok c) (ht : env.storedToken = some token)
    (hv : token_still_valid env.now token = false) :
    AuthAction.refreshRequest ∈ (get_access_token env).2 ∨
      AuthAction.oauthFlow ∈ (get_access_token env).2 := by
  simp only [get_access_token, hc, ht, hv, Bool.false_eq_true, if_false]
  cases htr : token.refresh_token with
  | none =>
    cases hoo : env.oauthOutcome <;> simp [run_oauth_flow, hoo]
  | some rt =>
    cases hro : env.refreshOutcome with
    | error e =>
      cases hoo : env.oauthOutcome <;>
        simp [refresh_access_token, hro, run_oauth_flow, hoo]
    | ok resp => simp [refresh_access_token, hro]

/-- C1: for a persisted token with `expires_at` set (and readable
credentials), `get_access_token` returns the cached access token with no
network call exactly when `now + 60 < expires_at`; when `expires_at ≤ now +
60` it instead attempts a refresh or the full re-authorization flow. -/
theorem get_access_token_buffer_rule (env : AuthEnv) (token : Token) (e : Int)
    (hc : ∃ c, env.credsResult = .ok c)
    (ht : env.storedToken = some token)
    (he : token.expires_at = some e) :
    (((get_access_token env).1 = .ok token.access_token ∧
        NoNetworkCall (get_access_token env).2) ↔ env.now + 60 < e) ∧
    (e ≤ env.now + 60 →
      AuthAction.refreshRequest ∈ (get_access_token env).2 ∨
        AuthAction.oauthFlow ∈ (get_access_token env).2) := by
  obtain ⟨c, hc⟩ := hc
  by_cases hlt : env.now + 60 < e
  · have hv : token_still_valid env.now token = true := by
      simp [token_still_valid, he]; omega
    rw [get_access_token_of_valid env c token hc ht hv]
    refine ⟨⟨fun _ => hlt, fun _ => ⟨rfl, ?_⟩⟩, fun hle => absurd hlt (by omega)⟩
    intro a ha; cases ha
  · have hv : token_still_valid env.now token = false := by
      simp [token_still_valid, he]; omega
    have hnet := get_access_token_expired_network env c token hc ht hv
    refine ⟨⟨fun ⟨_, hnn⟩ => ?_, fun h => absurd h hlt⟩, fun _ => hnet⟩
    exfalso
    rcases hnet with hm | hm
    · simpa [AuthAction.isNetwork] using hnn _ hm
    · simpa [AuthAction.isNetwork] using hnn _ hm

/-- Witness for C1: with `now = 0` and `expires_at = 61` the cached token
is returned with an empty trace. -/
theorem get_access_token_buffer_rule_witness :
    (get_access_token exEnvFresh).1 = .ok "cached-tok" ∧
      NoNetworkCall (get_access_token exEnvFresh).2 :=
  (get_access_token_buffer_rule exEnvFresh ⟨"cached-tok", none, some 61⟩ 61
    ⟨exCreds, rfl⟩ rfl rfl).1.mpr (by decide)

/-- C3: on a successful refresh grant, the token constructed and persisted
retains the previous refresh token when the response omits `refresh_token`,
and takes the response's one when it is present. -/
theorem refresh_retains_refresh_token (env : AuthEnv) (token : Token)
    (rt : String) (resp : TokenResponse)
    (hc : ∃ c, env.credsResult = .ok c)
    (ht : env.storedToken = some token)
    (hv : token_still_valid env.now token = false)
    (hr : token.refresh_token = some rt)
    (ho : env.refreshOutcome = .ok resp) :
    ∃ t : Token,
      get_access_token env = (.ok t.access_token, [.refreshRequest, .saveToken t]) ∧
      (resp.refresh_token = none → t.refresh_token = some rt) ∧
      (∀ r, resp.refresh_token = some r → t.refresh_token = some r) := by
  obtain ⟨c, hc⟩ := hc
  refine ⟨mkRefreshedToken resp rt env.now,
    get_access_token_of_refresh env c token rt resp hc ht hv hr ho, ?_, ?_⟩
  · intro h; simp [mkRefreshedToken, h, Option.or]
  · intro r h; simp [mkRefreshedToken, h, Option.or]

/-- Witness for C3: a refresh response without `refresh_token` yields a
persisted token still carrying `"old-rt"`. -/
theorem refresh_retains_refresh_token_witness :
    ∃ t : Token,
      get_access_token exEnvRefresh = (.ok t.access_token, [.refreshRequest, .saveToken t]) ∧
      ((⟨"new-tok", none, some 3600⟩ : TokenResponse).refresh_token = none →
        t.refresh_token = some "old-rt") ∧
      (∀ r, (⟨"new-tok", none, some 3600⟩ : TokenResponse).refresh_token = some r →
        t.refresh_token = some r) :=
  refresh_retains_refresh_token exEnvRefresh ⟨"old-tok", some "old-rt", some 10⟩
    "old-rt" ⟨"new-tok", none, some 3600⟩ ⟨exCreds, rfl⟩ rfl (by decide) rfl rfl

/-- C10: `get_access_token` loads the credentials before looking at the
persisted token, so a failing credentials load yields that error and no
network call, whatever token is stored — even an unexpired one. -/
theorem get_access_token_creds_first (env : AuthEnv) (e : String)
    (h : env.credsResult = .error e) :
    get_access_token env = (.error e, []) := by
  simp only [get_access_token, h]

/-- Witness for C10: credentials unreadable while an unexpired token
(`expires_at = 1000000`, `now = 0`) is persisted. -/
theorem get_access_token_creds_first_witness :
    get_access_token exEnvNoCreds =
      (.error "Failed to read credentials.json: not found", []) :=
  get_access_token_creds_first exEnvNoCreds _ rfl

/-! ## Theorems: snapshot cache -/

/-- C4: `get_data` returns and stores the fresh snapshot when both fetchers
succeed; when either fails it returns the cached snapshot unchanged (no
error, no write) if one exists, and surfaces the failing fetcher's error
only when no cached value exists. -/
theorem get_data_cache_fallback (events_result : Except String (List Event))
    (tasks_result : Except String (List Task)) (cache : Option CachedData) :
    (∀ ev ts, events_result = .ok ev → tasks_result = .ok ts →
      get_data events_result tasks_result cache =
        { result := .ok ⟨ev, ts⟩, newCache := some ⟨ev, ts⟩,
          diskWrites := [⟨ev, ts⟩] }) ∧
    (∀ c, cache = some c →
      ((∃ e, events_result = .error e) ∨ (∃ e, tasks_result = .error e)) →
      get_data events_result tasks_result cache =
        { result := .ok c, newCache := some c, diskWrites := [] }) ∧
    (cache = none →
      (∀ e, events_result = .error e →
        (get_data events_result tasks_result cache).result = .error e) ∧
      (∀ ev e, events_result = .ok ev → tasks_result = .error e →
        (get_data events_result tasks_result cache).result = .error e)) := by
  obtain e | ev := events_result <;> obtain e' | ts := tasks_result <;>
    obtain _ | c := cache <;>
    simp [get_data]

/-- Witness for C4: events fetch fails while a cached snapshot exists — it
is returned unchanged with no disk write. -/
theorem get_data_cache_fallback_witness :
    get_data (.error "events down") (.ok []) (some ⟨[], []⟩) =
      { result := .ok ⟨[], []⟩, newCache := some ⟨[], []⟩, diskWrites := [] } :=
  (get_data_cache_fallback (.error "events down") (.ok []) (some ⟨[], []⟩)).2.1
    ⟨[], []⟩ rfl (.inl ⟨"events down", rfl⟩)

/-! ## Theorems: tasks fetcher -/

/-- Any task produced by the per-list loop has a non-blank title, comes
from a list whose name is allowed, and carries that list's id. -/
theorem mem_process_list {env : TasksEnv} {entry : TaskListEntry} {t : Task}
    (h : t ∈ process_list env entry) :
    t.title ≠ "" ∧ (entry.title.getD "") ∈ ALLOWED_LISTS ∧
      t.tasklist_id = entry.id := by
  unfold process_list at h
  by_cases ha : ALLOWED_LISTS.contains (entry.title.getD "") = true
  · simp only [ha, Bool.not_true, Bool.false_eq_true, if_false] at h
    cases hf : env.tasksFetch entry.id with
    | error e => rw [hf] at h; cases h
    | ok itemsOpt =>
      rw [hf] at h
      cases itemsOpt with
      | none => cases h
      | some items =>
        obtain ⟨item, _, hsome⟩ := List.mem_filterMap.mp h
        by_cases ht : item.title.getD "" = ""
        · rw [if_pos ht] at hsome; cases hsome
        · rw [if_neg ht] at hsome
          obtain rfl := Option.some_injective _ hsome
          exact ⟨ht, by simpa [List.contains] using ha, rfl⟩
  · rw [if_pos (by simpa using ha)] at h
    cases h

/-- C6: every task returned by the tasks fetcher belongs to a task list
whose name is in the operator allow-list, has a non-empty title, and is not
marked completed. -/
theorem get_tasks_invariant (env : TasksEnv) (l : List Task) (t : Task)
    (h : (get_tasks env).1 = .ok l) (hm : t ∈ l) :
    t.title ≠ "" ∧ t.completed = false ∧
      ∃ lists entry, env.taskListsOutcome = .ok (some lists) ∧ entry ∈ lists ∧
        (entry.title.getD "") ∈ ALLOWED_LISTS ∧ t.tasklist_id = entry.id := by
  cases htok : env.tokenResult with
  | error e => simp [get_tasks, htok] at h
  | ok tok =>
    cases hlists : env.taskListsOutcome with
    | error e => simp [get_tasks, htok, hlists] at h
    | ok itemsOpt =>
      cases itemsOpt with
      | none =>
        simp only [get_tasks, htok, hlists, Except.ok.injEq] at h
        subst h; simp at hm
      | some lists =>
        simp only [get_tasks, htok, hlists, Except.ok.injEq] at h
        subst h
        obtain ⟨hmem, hc⟩ := List.mem_filter.mp hm
        obtain ⟨entry, hentry, hpl⟩ := List.mem_flatMap.mp hmem
        obtain ⟨hti, hall, hid⟩ := mem_process_list hpl
        exact ⟨hti, by simpa using hc, lists, entry, rfl, hentry, hall, hid⟩

/-- Witness for C6: the surviving task of `exTasksEnv` satisfies the
invariant. -/
theorem get_tasks_invariant_witness :
    (⟨"t1", "Buy milk", false, "list1"⟩ : Task).title ≠ "" ∧
    (⟨"t1", "Buy milk", false, "list1"⟩ : Task).completed = false ∧
    (∃ lists entry, exTasksEnv.taskListsOutcome = .ok (some lists) ∧
      entry ∈ lists ∧ (entry.title.getD "") ∈ ALLOWED_LISTS ∧
      (⟨"t1", "Buy milk", false, "list1"⟩ : Task).tasklist_id = entry.id) :=
  get_tasks_invariant exTasksEnv [⟨"t1", "Buy milk", false, "list1"⟩]
    ⟨"t1", "Buy milk", false, "list1"⟩ rfl (by simp)

/-! ## Theorems: event ordering -/

/-- The comparator's non-strict order coincides with the spec's reading:
date ascending, all-day before timed within a date, then time ascending. -/
theorem eventLe_iff (a b : Event) : EventLe a b ↔ SpecEventOrder a b := by
  unfold EventLe eventCmp SpecEventOrder
  cases hd : compare a.date b.date with
  | lt =>
    have h := compare_lt_iff_lt.mp hd
    simp [h]
  | eq =>
    have hdate : a.date = b.date := compare_eq_iff_eq.mp hd
    simp only [hd, ne_eq, not_true_eq_false, if_false, lt_irrefl, hdate,
      true_and, false_or]
    cases haa : a.is_all_day <;> cases hbb : b.is_all_day <;>
      simp only [Bool.false_and, Bool.true_and, Bool.not_false, Bool.not_true,
        Bool.and_false, Bool.and_true, if_true, if_false, Bool.true_eq_false,
        Bool.false_eq_true, false_and, true_and, and_true, and_false, false_or,
        or_false, if_neg, reduceIte]
    · cases ht : compare a.time b.time with
      | lt => simp [le_of_lt (compare_lt_iff_lt.mp ht)]
      | eq => simp [le_of_eq (compare_eq_iff_eq.mp ht)]
      | gt =>
        have := compare_gt_iff_gt.mp ht
        simp [not_le_of_lt this]
    · simp
    · simp
    · cases ht : compare a.time b.time with
      | lt => simp [le_of_lt (compare_lt_iff_lt.mp ht)]
      | eq => simp [le_of_eq (compare_eq_iff_eq.mp ht)]
      | gt =>
        have := compare_gt_iff_gt.mp ht
        simp [not_le_of_lt this]
  | gt =>
    have h := compare_gt_iff_gt.mp hd
    simp only [hd, ne_eq, not_false_eq_true, if_true]
    simp [not_lt_of_gt h, ne_of_gt h]

/-- The spec order is transitive. -/
theorem specEventOrder_trans (a b c : Event)
    (h1 : SpecEventOrder a b) (h2 : SpecEventOrder b c) : SpecEventOrder a c := by
  unfold SpecEventOrder at *
  rcases h1 with h1 | ⟨hd1, h1⟩
  · rcases h2 with h2 | ⟨hd2, _⟩
    · exact Or.inl (h1.trans h2)
    · exact Or.inl (hd2 ▸ h1)
  · rcases h2 with h2 | ⟨hd2, h2⟩
    · exact Or.inl (hd1 ▸ h2)
    · refine Or.inr ⟨hd1.trans hd2, ?_⟩
      rcases h1 with ⟨ha1, hb1⟩ | ⟨hf1, ht1⟩
      · rcases h2 with ⟨hb2, _⟩ | ⟨hf2, _⟩
        · rw [hb1] at hb2; cases hb2
        · exact Or.inl ⟨ha1, hf2.symm.trans hb1⟩
      · rcases h2 with ⟨hb2, hc2⟩ | ⟨hf2, ht2⟩
        · exact Or.inl ⟨hf1.trans hb2, hc2⟩
        · exact Or.inr ⟨hf1.trans hf2, ht1.trans ht2⟩

/-- The spec order is total. -/
theorem specEventOrder_total (a b : Event) :
    SpecEventOrder a b ∨ SpecEventOrder b a := by
  unfold SpecEventOrder
  rcases lt_trichotomy a.date b.date with h | h | h
  · exact Or.inl (Or.inl h)
  · cases haa : a.is_all_day <;> cases hbb : b.is_all_day
    · rcases le_total a.time b.time with ht | ht
      · exact Or.inl (Or.inr ⟨h, Or.inr ⟨rfl, ht⟩⟩)
      · exact Or.inr (Or.inr ⟨h.symm, Or.inr ⟨rfl, ht⟩⟩)
    · exact Or.inr (Or.inr ⟨h.symm, Or.inl ⟨rfl, rfl⟩⟩)
    · exact Or.inl (Or.inr ⟨h, Or.inl ⟨rfl, rfl⟩⟩)
    · rcases le_total a.time b.time with ht | ht
      · exact Or.inl (Or.inr ⟨h, Or.inr ⟨rfl, ht⟩⟩)
      · exact Or.inr (Or.inr ⟨h.symm, Or.inr ⟨rfl, ht⟩⟩)
  · exact Or.inr (Or.inl h)

instance : IsTrans Event EventLe :=
  ⟨fun a b c h1 h2 => (eventLe_iff a c).mpr
    (specEventOrder_trans a b c ((eventLe_iff a b).mp h1) ((eventLe_iff b c).mp h2))⟩

instance : IsTotal Event EventLe :=
  ⟨fun a b => (specEventOrder_total a b).imp
    (eventLe_iff a b).mpr (eventLe_iff b a).mpr⟩

/-- The sort at the end of `get_events` yields a list sorted by the spec
order. -/
theorem sortEvents_sorted (l : List Event) :
    (sortEvents l).Sorted SpecEventOrder :=
  (List.sorted_insertionSort EventLe l).imp fun h => (eventLe_iff _ _).mp h

/-- C5: every event list returned by the events fetcher is sorted by date
ascending, then all-day events before timed events within a date, then by
time ascending; on the spec's scenario (all-day 2024-06-10, timed
2024-06-10T09:00, timed 2024-06-09T23:00) the output order is the timed
2024-06-09 event, then the all-day 2024-06-10 event, then the timed
2024-06-10 event. -/
theorem get_events_sorted (env : CalEnv) (days : Int) (evs : List Event)
    (h : (get_events env days).1 = .ok evs) :
    evs.Sorted SpecEventOrder ∧
      (get_events exCalEnv 60).1 = .ok [exEvSun, exEvMonAllDay, exEvMonTimed] := by
  refine ⟨?_, rfl⟩
  cases htok : env.tokenSeq 0 with
  | error e => simp [get_events, htok] at h
  | ok tok =>
    rcases hgc : get_calendars env 1 with ⟨res, acts⟩
    cases res with
    | error e => simp [get_events, htok, hgc] at h
    | ok calendars =>
      simp only [get_events, htok, hgc, Except.ok.injEq] at h
      rw [← h]
      exact sortEvents_sorted _

/-- Witness for C5: the scenario environment produces the expected sorted
list, which satisfies the spec order. -/
theorem get_events_sorted_witness :
    ([exEvSun, exEvMonAllDay, exEvMonTimed] : List Event).Sorted SpecEventOrder ∧
      (get_events exCalEnv 60).1 = .ok [exEvSun, exEvMonAllDay, exEvMonTimed] :=
  get_events_sorted exCalEnv 60 [exEvSun, exEvMonAllDay, exEvMonTimed] rfl

/-! ## Theorems: query window (C7) -/

/-- Subtracting whole days commutes with taking the UTC day number. -/
theorem epochDay_sub_days (t d : Int) : epochDay (t - d * 86400) = epochDay t - d := by
  unfold epochDay
  rw [Int.fdiv_eq_ediv _ (by norm_num), Int.fdiv_eq_ediv _ (by norm_num)]
  omega

/-- The trace of a fully successful `get_events` call, explicitly. -/
theorem get_events_trace_ok (env : CalEnv) (days : Int) (tok tok2 : String)
    (items : List CalendarListEntry)
    (hs : env.tokenSeq 0 = .ok tok) (h1 : env.tokenSeq 1 = .ok tok2)
    (h2 : env.calendarListOutcome = .ok items) :
    (get_events env days).2 =
      [FetchAction.tokenAcquire, FetchAction.tokenAcquire,
        FetchAction.httpCalendarList] ++
        ((items.map (fun item =>
          ({ id := item.id
             name := item.summary.getD "Unnamed"
             color := item.background_color.getD "#3b82f6"
             primary := item.primary.getD false } : Calendar))).map
          (fun c => FetchAction.httpEventsList c.id
            (start_of_week_string env.now) (time_max_string env.now days))) := by
  simp only [get_events, get_calendars, hs, h1, h2]

/-- The trace of a successful `get_tasks` call, explicitly. -/
theorem get_tasks_trace_ok (tenv : TasksEnv) (tok : String)
    (ls : List TaskListEntry)
    (ht : tenv.tokenResult = .ok tok)
    (hl : tenv.taskListsOutcome = .ok (some ls)) :
    (get_tasks tenv).2 =
      [FetchAction.tokenAcquire, FetchAction.httpTaskLists] ++
        (ls.filter (fun l => ALLOWED_LISTS.contains (l.title.getD ""))).map
          (fun l => FetchAction.httpTasksList l.id) := by
  simp only [get_tasks, ht, hl]

/-- C7 as stated is false on the code: the window is computed in UTC, not
local time, and ends at 23:59:59 of the day of `now + N days`, not at the
instant `now + N days`.  Concretely, at `now = 2024-06-12T10:00:00Z`
(epoch 1718186400) in a local zone at UTC+2: the code's `timeMin` is
`2024-06-10T00:00:00Z`, the instant 1717977600, while Monday 00:00 local is
the instant 1717970400; and the code's `timeMax` is `2024-08-11T23:59:59Z`,
the instant 1723420799, while `now + 60 days` is 1723370400. -/
theorem get_events_window_counterexample :
    start_of_week_string 1718186400 = "2024-06-10T00:00:00Z" ∧
    utc_instant_of_day (epochDay ((1718186400 : Int) -
      num_days_from_monday 1718186400 * 86400)) = 1717977600 ∧
    spec_local_week_start 1718186400 7200 = 1717970400 ∧
    ((1717977600 : Int) ≠ 1717970400) ∧
    time_max_string 1718186400 60 = "2024-08-11T23:59:59Z" ∧
    utc_instant_of_day (epochDay ((1718186400 : Int) + 60 * 86400)) + 86399 =
      1723420799 ∧
    (1718186400 : Int) + 60 * 86400 = 1723370400 ∧
    ((1723420799 : Int) ≠ 1723370400) :=
  ⟨rfl, rfl, rfl, by decide, rfl, rfl, by decide, by decide⟩

/-- C7 amended: every events request of `get_events` carries
`timeMin = start_of_week_string now` and `timeMax = time_max_string now
days`, where `timeMin` is Monday 00:00 of the current week *in UTC* (the
UTC day `epochDay now - num_days_from_monday now`) and `timeMax` is
23:59:59 UTC on the UTC day of `now + days` days. -/
theorem get_events_window_utc (env : CalEnv) (days : Int) :
    (∀ cid tmin tmax,
      FetchAction.httpEventsList cid tmin tmax ∈ (get_events env days).2 →
        tmin = start_of_week_string env.now ∧
          tmax = time_max_string env.now days) ∧
    start_of_week_string env.now =
      format_ymd (epochDay env.now - num_days_from_monday env.now) ++
        "T00:00:00Z" ∧
    time_max_string env.now days =
      format_ymd (epochDay (env.now + days * 86400)) ++ "T23:59:59Z" := by
  refine ⟨?_, ?_, rfl⟩
  · intro cid tmin tmax hmem
    cases hs : env.tokenSeq 0 with
    | error e => simp [get_events, hs] at hmem
    | ok tok =>
      cases h1 : env.tokenSeq 1 with
      | error e => simp [get_events, get_calendars, hs, h1] at hmem
      | ok tok2 =>
        cases h2 : env.calendarListOutcome with
        | error e => simp [get_events, get_calendars, hs, h1, h2] at hmem
        | ok items =>
          rw [get_events_trace_ok env days tok tok2 items hs h1 h2] at hmem
          rcases List.mem_append.mp hmem with h | hmem3
          · simp at h
          obtain ⟨c, _, heq⟩ := List.mem_map.mp hmem3
          injection heq with e1 e2 e3
          exact ⟨e2.symm, e3.symm⟩
  · simp only [start_of_week_string]
    rw [epochDay_sub_days]

/-- Witness for the amended C7: on the scenario environment the single
events request carries the UTC strings computed from `now`. -/
theorem get_events_window_utc_witness :
    ("2024-06-10T00:00:00Z" : String) = start_of_week_string exCalEnv.now ∧
      ("2024-08-11T23:59:59Z" : String) = time_max_string exCalEnv.now 60 :=
  (get_events_window_utc exCalEnv 60).1 "cal1"
    "2024-06-10T00:00:00Z" "2024-08-11T23:59:59Z" (by decide)

/-! ## Theorems: token acquisitions per fetcher (C8) -/

/-- `countTokenAcquires` adds over concatenation. -/
theorem countTokenAcquires_append (l1 l2 : List FetchAction) :
    countTokenAcquires (l1 ++ l2) =
      countTokenAcquires l1 + countTokenAcquires l2 := by
  induction l1 with
  | nil => simp [countTokenAcquires]
  | cons a t ih => simp [countTokenAcquires, ih]; omega

/-- Per-calendar events requests are never token acquisitions. -/
theorem countTokenAcquires_evActs (calendars : List Calendar) (tmin tmax : String) :
    countTokenAcquires
      (calendars.map (fun c => FetchAction.httpEventsList c.id tmin tmax)) = 0 := by
  induction calendars with
  | nil => simp [countTokenAcquires]
  | cons c t ih => simp [countTokenAcquires, ih]

/-- Per-list task requests are never token acquisitions. -/
theorem countTokenAcquires_taskActs (lists : List TaskListEntry) :
    countTokenAcquires
      ((lists.filter (fun l => ALLOWED_LISTS.contains (l.title.getD ""))).map
        (fun l => FetchAction.httpTasksList l.id)) = 0 := by
  induction lists with
  | nil => simp [countTokenAcquires]
  | cons l t ih =>
    cases h : ALLOWED_LISTS.contains (l.title.getD "") <;>
      simp only [List.filter, h, List.map_cons, countTokenAcquires, ih] <;> simp

/-- C8 as stated is false on the code: in `exCalEnv` the events fetch
succeeds, yet `get_access_token` is invoked twice during the single call —
once by `get_events` itself and once inside `get_calendars`. -/
theorem get_events_token_twice :
    (∃ evs, (get_events exCalEnv 60).1 = .ok evs) ∧
    countTokenAcquires (get_events exCalEnv 60).2 = 2 ∧ (2 : Nat) ≠ 1 :=
  ⟨⟨[exEvSun, exEvMonAllDay, exEvMonTimed], rfl⟩, rfl, by decide⟩

/-- C8 amended: the tasks fetcher acquires a token exactly once per call;
the events fetcher acquires one twice (directly and via `get_calendars`)
whenever its own acquisition succeeds, and once when it fails; a token
failure aborts the fetcher with the token error, independently of the other
fetcher. -/
theorem fetcher_token_acquisitions (cenv : CalEnv) (tenv : TasksEnv) (days : Int) :
    countTokenAcquires (get_tasks tenv).2 = 1 ∧
    (∀ e, tenv.tokenResult = .error e → (get_tasks tenv).1 = .error e) ∧
    (∀ s, cenv.tokenSeq 0 = .ok s →
      countTokenAcquires (get_events cenv days).2 = 2) ∧
    (∀ e, cenv.tokenSeq 0 = .error e →
      (get_events cenv days).1 = .error e ∧
        countTokenAcquires (get_events cenv days).2 = 1) := by
  refine ⟨?_, ?_, ?_, ?_⟩
  · cases ht : tenv.tokenResult with
    | error e => simp [get_tasks, ht, countTokenAcquires]
    | ok tok =>
      cases hl : tenv.taskListsOutcome with
      | error e => simp [get_tasks, ht, hl, countTokenAcquires]
      | ok itemsOpt =>
        cases itemsOpt with
        | none => simp [get_tasks, ht, hl, countTokenAcquires]
        | some ls =>
          rw [get_tasks_trace_ok tenv tok ls ht hl, countTokenAcquires_append,
            countTokenAcquires_taskActs]
          simp [countTokenAcquires]
  · intro e he; simp [get_tasks, he]
  · intro s hs
    cases h1 : cenv.tokenSeq 1 with
    | error e => simp [get_events, get_calendars, hs, h1, countTokenAcquires]
    | ok tok2 =>
      cases h2 : cenv.calendarListOutcome with
      | error e => simp [get_events, get_calendars, hs, h1, h2, countTokenAcquires]
      | ok items =>
        rw [get_events_trace_ok cenv days s tok2 items hs h1 h2,
          countTokenAcquires_append, countTokenAcquires_evActs]
        simp [countTokenAcquires]
  · intro e he
    simp [get_events, he, countTokenAcquires]

/-- Witness for the amended C8: on the concrete environments the counts
are 1 (tasks) and 2 (events). -/
theorem fetcher_token_acquisitions_witness :
    countTokenAcquires (get_tasks exTasksEnv).2 = 1 ∧
      countTokenAcquires (get_events exCalEnv 60).2 = 2 :=
  ⟨(fetcher_token_acquisitions exCalEnv exTasksEnv 60).1,
   (fetcher_token_acquisitions exCalEnv exTasksEnv 60).2.2.1 "tok" rfl⟩

/-! ## Theorems: PKCE (C2) -/

/-- Length of a base64url-encoded (unpadded) byte sequence. -/
theorem b64urlEncode_length :
    ∀ l : List Nat, (b64urlEncode l).length =
      4 * (l.length / 3) + (if l.length % 3 = 0 then 0 else l.length % 3 + 1)
  | [] => by simp [b64urlEncode]
  | [a] => by simp [b64urlEncode]
  | [a, b] => by simp [b64urlEncode]
  | a :: b :: c :: rest => by
    have ih := b64urlEncode_length rest
    simp only [b64urlEncode, List.length_cons, ih]
    split_ifs <;> omega

/-- Every output character of `b64urlChar` is in the alphabet. -/
theorem b64urlChar_mem (n : Nat) : b64urlChar n ∈ b64urlAlphabet := by
  unfold b64urlChar
  rcases lt_or_ge n b64urlAlphabet.length with h | h
  · rw [List.getD_eq_getElem _ _ h]
    exact List.getElem_mem h
  · rw [List.getD_eq_default _ _ h]
    decide

/-- Every character of a base64url encoding is in the alphabet. -/
theorem b64urlEncode_mem :
    ∀ l : List Nat, ∀ c ∈ b64urlEncode l, c ∈ b64urlAlphabet
  | [] => by simp [b64urlEncode]
  | [a] => by
    intro c hc
    simp only [b64urlEncode, List.mem_cons, List.not_mem_nil, or_false] at hc
    rcases hc with rfl | rfl <;> exact b64urlChar_mem _
  | [a, b] => by
    intro c hc
    simp only [b64urlEncode, List.mem_cons, List.not_mem_nil, or_false] at hc
    rcases hc with rfl | rfl | rfl <;> exact b64urlChar_mem _
  | a :: b :: c' :: rest => by
    intro c hc
    simp only [b64urlEncode, List.mem_cons] at hc
    rcases hc with rfl | rfl | rfl | rfl | hc
    · exact b64urlChar_mem _
    · exact b64urlChar_mem _
    · exact b64urlChar_mem _
    · exact b64urlChar_mem _
    · exact b64urlEncode_mem rest c hc

/-- The alphabet is ASCII and padding-free. -/
theorem b64urlAlphabet_props : ∀ c ∈ b64urlAlphabet, c.toNat < 128 ∧ c ≠ '=' := by
  decide

/-- UTF-8 encoding of an all-ASCII character list is the identity on code
points. -/
theorem utf8_flatMap_of_ascii (l : List Char) (h : ∀ c ∈ l, c.toNat < 128) :
    l.flatMap utf8EncodeChar = l.map Char.toNat := by
  induction l with
  | nil => simp
  | cons a t ih =>
    have ha : a.toNat < 128 := h a (by simp)
    simp only [List.flatMap_cons, List.map_cons, utf8EncodeChar, if_pos ha,
      List.singleton_append, List.cons.injEq]
    exact ⟨trivial, ih (fun c hc => h c (by simp [hc]))⟩

/-- On an ASCII string the challenge hashes exactly the code points. -/
theorem generate_code_challenge_ascii (s : String)
    (h : ∀ c ∈ s.data, c.toNat < 128) :
    generate_code_challenge s =
      String.mk (b64urlEncode (sha256 (s.data.map Char.toNat))) := by
  unfold generate_code_challenge strBytes
  rw [utf8_flatMap_of_ascii s.data h]

set_option maxRecDepth 10000 in
/-- The SHA-256 model reproduces the FIPS 180-4 test vector for "abc". -/
theorem sha256_abc_vector :
    sha256 [97, 98, 99] =
      [186, 120, 22, 191, 143, 1, 207, 234, 65, 65, 64, 222, 93, 174, 34, 35,
       176, 3, 97, 163, 150, 23, 122, 156, 180, 16, 255, 97, 242, 0, 21, 173] :=
  rfl

/-- C2: for every PKCE pair, the challenge is the unpadded base64url
encoding of the SHA-256 digest of the verifier's ASCII bytes; the verifier
is the unpadded base64url encoding of the 32 drawn random bytes (43
alphabet characters, ASCII, no `=` padding); and re-deriving the challenge
from the verifier reproduces the stored challenge. -/
theorem pkce_pair_spec (rng : Nat → Fin 256) :
    (pkce_generate rng).2 = generate_code_challenge (pkce_generate rng).1 ∧
    (pkce_generate rng).2 =
      String.mk (b64urlEncode (sha256 ((pkce_generate rng).1.data.map Char.toNat))) ∧
    (pkce_generate rng).1 =
      String.mk (b64urlEncode ((List.range 32).map (fun i => (rng i).val))) ∧
    ((List.range 32).map (fun i => (rng i).val)).length = 32 ∧
    (pkce_generate rng).1.length = 43 ∧
    (∀ c ∈ (pkce_generate rng).1.data, c.toNat < 128 ∧ c ≠ '=') := by
  have hmem : ∀ c ∈ b64urlEncode ((List.range 32).map (fun i => (rng i).val)),
      c ∈ b64urlAlphabet := b64urlEncode_mem _
  refine ⟨rfl, ?_, rfl, by simp, ?_, ?_⟩
  · exact generate_code_challenge_ascii _
      (fun c hc => (b64urlAlphabet_props c (hmem c hc)).1)
  · show (String.mk (b64urlEncode _)).length = 43
    simp only [String.length, b64urlEncode_length, List.length_map,
      List.length_range]
    norm_num
  · intro c hc
    exact b64urlAlphabet_props c (hmem c hc)

/-- Witness for C2 with the all-zero RNG: the verifier is the encoding of
32 zero bytes, has length 43, and the stored challenge is the re-derived
one. -/
theorem pkce_pair_spec_witness :
    (pkce_generate exRng).1 =
      String.mk (b64urlEncode ((List.range 32).map (fun i => (exRng i).val))) ∧
    (pkce_generate exRng).1.length = 43 ∧
    (pkce_generate exRng).2 = generate_code_challenge (pkce_generate exRng).1 :=
  ⟨(pkce_pair_spec exRng).2.2.1, (pkce_pair_spec exRng).2.2.2.2.1,
   (pkce_pair_spec exRng).1⟩

set_option maxRecDepth 10000 in
/-- The PKCE model evaluated on the all-zero RNG: 43 `A`s and the base64url
SHA-256 of that ASCII string. -/
theorem pkce_concrete_value :
    pkce_generate exRng =
      ("AAAAAAAAAAAAAAAAAAAAAAAAAAAAAAAAAAAAAAAAAAA",
       "DwBzhbb51LfusnSGBa_hqYSgo7-j8BTQnip4TOnlzRo") :=
  rfl


/-! ## Theorems: JSON persistence (C9) -/

theorem scan_nil (st : ScanSt) : scan st [] = st := rfl

theorem scan_cons (st : ScanSt) (c : Char) (l : List Char) :
    scan st (c :: l) = scan (scanChar st c) l := rfl

theorem scan_append (st : ScanSt) (u v : List Char) :
    scan st (u ++ v) = scan (scan st u) v := List.foldl_append _ _ _ _

theorem Bal.nil0 : Bal [] 0 := fun d => by simp [scan]

theorem Bal.append_bal {u v : List Char} {j k : Int} (hu : Bal u j) (hv : Bal v k) :
    Bal (u ++ v) (j + k) := by
  intro d
  rw [scan_append, hu d, hv (d + j), add_assoc]

theorem scanChar_plain {c : Char} (h : plainChar c = true) (d : Int) :
    scanChar ⟨d, false, false⟩ c = ⟨d, false, false⟩ := by
  simp only [plainChar, Bool.not_eq_eq_eq_not, Bool.not_true, Bool.or_eq_false_iff,
    decide_eq_false_iff_not] at h
  obtain ⟨⟨⟨⟨h1, h2⟩, h3⟩, h4⟩, h5⟩ := h
  simp [scanChar, h1, h2, h3, h4, h5]

theorem Bal.plain_bal {u : List Char} (h : ∀ c ∈ u, plainChar c = true) : Bal u 0 := by
  intro d
  induction u with
  | nil => simp [scan]
  | cons c t ih =>
    rw [scan_cons, scanChar_plain (h c (by simp)) d]
    exact ih (fun c hc => h c (by simp [hc]))

theorem Bal.open_brace : Bal ['{'] 1 := fun d => by simp [scan, scanChar]

theorem Bal.open_bracket : Bal ['['] 1 := fun d => by simp [scan, scanChar]

theorem Bal.close_brace : Bal ['}'] (-1) := fun d => by
  simp [scan, scanChar, sub_eq_add_neg]

theorem Bal.close_bracket : Bal [']'] (-1) := fun d => by
  simp [scan, scanChar, sub_eq_add_neg]

theorem Bal.quoted_bal {u : List Char} (h : StrClose u) : Bal ('"' :: u) 0 := by
  intro d
  rw [scan_cons]
  have : scanChar ⟨d, false, false⟩ '"' = ⟨d, true, false⟩ := by simp [scanChar]
  rw [this, h d, add_zero]

/-! ### Helper-parser soundness -/

theorem skipWs_sound (cs : List Char) :
    ∃ u, cs = u ++ skipWs cs ∧ Bal u 0 := by
  induction cs with
  | nil => exact ⟨[], rfl, Bal.nil0⟩
  | cons c rest ih =>
    by_cases h : c = ' ' ∨ c = '\n' ∨ c = '\t' ∨ c = '\r'
    · obtain ⟨u, hdec, hbal⟩ := ih
      refine ⟨c :: u, ?_, ?_⟩
      · simp only [skipWs, if_pos h, List.cons_append]
        rw [← hdec]
      · intro d
        rw [scan_cons, scanChar_plain ?_ d]
        · exact hbal d
        · rcases h with rfl | rfl | rfl | rfl <;> decide
    · refine ⟨[], ?_, Bal.nil0⟩
      simp [skipWs, if_neg h]

theorem parseStringBody_sound :
    ∀ (l : List Char) (s r : List Char), parseStringBody l = some (s, r) →
      ∃ u, l = u ++ r ∧ StrClose u
  | [], _, _ => fun h => nomatch h
  | c :: rest, s, r => by
    intro h
    by_cases hq : c = '"'
    · subst hq
      rw [parseStringBody.eq_def] at h
      simp only [if_pos rfl, Option.some.injEq, Prod.mk.injEq] at h
      obtain ⟨rfl, rfl⟩ := h
      exact ⟨['"'], rfl, fun d => by simp [scan, scanChar]⟩
    · by_cases hb : c = '\\'
      · subst hb
        cases rest with
        | nil => exact nomatch h
        | cons e rest2 =>
          rw [parseStringBody.eq_def] at h
          simp only [if_neg (by decide : ¬('\\' : Char) = '"'), if_pos rfl] at h
          cases hps : parseStringBody rest2 with
          | none => rw [hps] at h; cases h
          | some pr =>
            obtain ⟨s', r'⟩ := pr
            rw [hps] at h
            simp only [Option.some.injEq, Prod.mk.injEq] at h
            obtain ⟨rfl, rfl⟩ := h
            obtain ⟨u', hdec, hscan⟩ := parseStringBody_sound rest2 s' r hps
            refine ⟨'\\' :: e :: u', by simp [hdec], fun d => ?_⟩
            rw [scan_cons, scan_cons]
            have h1 : scanChar ⟨d, true, false⟩ '\\' = ⟨d, true, true⟩ := by
              simp [scanChar]
            have h2 : scanChar ⟨d, true, true⟩ e = ⟨d, true, false⟩ := by
              simp [scanChar]
            rw [h1, h2, hscan d]
      · rw [parseStringBody.eq_def] at h
        simp only [if_neg hq, if_neg hb] at h
        cases hps : parseStringBody rest with
        | none => rw [hps] at h; cases h
        | some pr =>
          obtain ⟨s', r'⟩ := pr
          rw [hps] at h
          simp only [Option.some.injEq, Prod.mk.injEq] at h
          obtain ⟨rfl, rfl⟩ := h
          obtain ⟨u', hdec, hscan⟩ := parseStringBody_sound rest s' r' hps
          refine ⟨c :: u', by simp [hdec], fun d => ?_⟩
          rw [scan_cons]
          have h1 : scanChar ⟨d, true, false⟩ c = ⟨d, true, false⟩ := by
            simp [scanChar, hq, hb]
          rw [h1, hscan d]

theorem isNumChar_plain {c : Char} (h : isNumChar c = true) : plainChar c = true := by
  by_contra hc
  rw [Bool.not_eq_true] at hc
  simp only [plainChar, Bool.not_eq_false', Bool.or_eq_true, decide_eq_true_eq] at hc
  rcases hc with ((((rfl | rfl) | rfl) | rfl) | rfl) <;> simp [isNumChar] at h

theorem spanNum_sound :
    ∀ cs : List Char, cs = (spanNum cs).1 ++ (spanNum cs).2 ∧
      ∀ c ∈ (spanNum cs).1, plainChar c = true
  | [] => by simp [spanNum]
  | c :: rest => by
    by_cases h : isNumChar c = true
    · obtain ⟨hdec, hmem⟩ := spanNum_sound rest
      simp only [spanNum, if_pos h]
      constructor
      · conv_lhs => rw [hdec]
        simp
      · intro x hx
        simp only [List.mem_cons] at hx
        rcases hx with rfl | hx
        · exact isNumChar_plain h
        · exact hmem x hx
    · simp [spanNum, if_neg h]

theorem parseNumber_sound (cs : List Char) (j : Json) (r : List Char)
    (h : parseNumber cs = some (j, r)) : ∃ u, cs = u ++ r ∧ Bal u 0 := by
  match cs with
  | [] => exact nomatch h
  | c :: rest =>
    by_cases hneg : c = '-'
    · subst hneg
      match rest with
      | [] => exact nomatch h
      | c2 :: rest2 =>
        rw [parseNumber.eq_def] at h
        simp only [if_pos rfl] at h
        by_cases hd : c2.isDigit = true
        · rw [if_pos hd] at h
          rcases hsp : spanNum (c2 :: rest2) with ⟨a, b⟩
          rw [hsp] at h
          simp only [Option.some.injEq, Prod.mk.injEq] at h
          obtain ⟨rfl, rfl⟩ := h
          obtain ⟨hdec, hmem⟩ := spanNum_sound (c2 :: rest2)
          rw [hsp] at hdec hmem
          refine ⟨'-' :: a, ?_, ?_⟩
          · conv_lhs => rw [hdec]
            simp
          · exact Bal.plain_bal (by
              intro x hx
              simp only [List.mem_cons] at hx
              rcases hx with rfl | hx
              · decide
              · exact hmem x hx)
        · rw [if_neg hd] at h; cases h
    · simp only [parseNumber.eq_def, if_neg hneg] at h
      by_cases hd : c.isDigit = true
      · rw [if_pos hd] at h
        rcases hsp : spanNum (c :: rest) with ⟨a, b⟩
        rw [hsp] at h
        simp only [Option.some.injEq, Prod.mk.injEq] at h
        obtain ⟨rfl, rfl⟩ := h
        obtain ⟨hdec, hmem⟩ := spanNum_sound (c :: rest)
        rw [hsp] at hdec hmem
        refine ⟨a, ?_, Bal.plain_bal hmem⟩
        conv_lhs => rw [hdec]
      · rw [if_neg hd] at h; cases h

/-! ### Step lemmas for the fueled parsers -/

theorem Bal.append0 {u v : List Char} (hu : Bal u 0) (hv : Bal v 0) :
    Bal (u ++ v) 0 := by simpa using Bal.append_bal hu hv

theorem Bal.append_left0 {u v : List Char} {k : Int} (hu : Bal u 0) (hv : Bal v k) :
    Bal (u ++ v) k := by simpa using Bal.append_bal hu hv

theorem parseValue_succ (n : Nat) (cs : List Char) :
    parseValue (n + 1) cs =
      match skipWs cs with
      | [] => none
      | c :: rest =>
        if c = 'n' then
          match rest with
          | 'u' :: 'l' :: 'l' :: r => some (.null, r)
          | _ => none
        else if c = 't' then
          match rest with
          | 'r' :: 'u' :: 'e' :: r => some (.bool true, r)
          | _ => none
        else if c = 'f' then
          match rest with
          | 'a' :: 'l' :: 's' :: 'e' :: r => some (.bool false, r)
          | _ => none
        else if c = '"' then
          match parseStringBody rest with
          | some (s, r) => some (.str s, r)
          | none => none
        else if c = '{' then
          match skipWs rest with
          | '}' :: r2 => some (.obj [], r2)
          | _ =>
            match parseMembers n (skipWs rest) with
            | some (f, r) => some (.obj f, r)
            | none => none
        else if c = '[' then
          match skipWs rest with
          | ']' :: r2 => some (.arr [], r2)
          | _ =>
            match parseElems n rest with
            | some (es, r) => some (.arr es, r)
            | none => none
        else parseNumber (c :: rest) := by
  rw [parseValue.eq_def]

theorem parseMembers_succ (n : Nat) (cs : List Char) :
    parseMembers (n + 1) cs =
      match cs with
      | '"' :: rest =>
        match parseStringBody rest with
        | none => none
        | some (key, r1) =>
          match skipWs r1 with
          | ':' :: r2 =>
            match parseValue n r2 with
            | none => none
            | some (v, r3) =>
              match skipWs r3 with
              | ',' :: r4 =>
                match parseMembers n (skipWs r4) with
                | some (fs, r5) => some ((key, v) :: fs, r5)
                | none => none
              | '}' :: r4 => some ([(key, v)], r4)
              | _ => none
          | _ => none
      | _ => none := by
  rw [parseMembers.eq_def]

theorem parseElems_succ (n : Nat) (cs : List Char) :
    parseElems (n + 1) cs =
      match parseValue n cs with
      | none => none
      | some (v, r1) =>
        match skipWs r1 with
        | ',' :: r2 =>
          match parseElems n r2 with
          | some (es, r3) => some (v :: es, r3)
          | none => none
        | ']' :: r2 => some ([v], r2)
        | _ => none := by
  rw [parseElems.eq_def]

/-! ### Soundness of the parsers with respect to the scanner -/

theorem Bal.cons_plain {v : List Char} {k : Int} {c : Char} (hc : plainChar c = true)
    (hv : Bal v k) : Bal (c :: v) k := by
  intro d
  rw [scan_cons, scanChar_plain hc d]
  exact hv d

theorem Bal.cons_open0 {v : List Char} {c : Char} (hc : c = '{' ∨ c = '[')
    (hv : Bal v (-1)) : Bal (c :: v) 0 := by
  intro d
  rw [scan_cons]
  have h1 : scanChar ⟨d, false, false⟩ c = ⟨d + 1, false, false⟩ := by
    rcases hc with rfl | rfl <;> simp [scanChar]
  rw [h1, hv (d + 1)]
  congr 1
  omega

theorem Bal.quoted_append {u v : List Char} {k : Int} (h : StrClose u) (hv : Bal v k) :
    Bal ('"' :: (u ++ v)) k := by
  intro d
  rw [scan_cons]
  have h1 : scanChar ⟨d, false, false⟩ '"' = ⟨d, true, false⟩ := by simp [scanChar]
  rw [h1, scan_append, h d]
  exact hv d

theorem parsers_sound (fuel : Nat) :
    (∀ cs j rest, parseValue fuel cs = some (j, rest) →
      ∃ u, cs = u ++ rest ∧ Bal u 0) ∧
    (∀ cs f rest, parseMembers fuel cs = some (f, rest) →
      ∃ u, cs = u ++ rest ∧ Bal u (-1)) ∧
    (∀ cs es rest, parseElems fuel cs = some (es, rest) →
      ∃ u, cs = u ++ rest ∧ Bal u (-1)) := by
  induction fuel with
  | zero =>
    refine ⟨?_, ?_, ?_⟩ <;> (intro cs x rest h; exact nomatch h)
  | succ n ih =>
    obtain ⟨ihV, ihM, ihE⟩ := ih
    refine ⟨?_, ?_, ?_⟩
    · -- parseValue
      intro cs j rest h
      rw [parseValue_succ] at h
      obtain ⟨w, hw, hwBal⟩ := skipWs_sound cs
      cases hsw : skipWs cs with
      | nil => simp only [hsw] at h; exact nomatch h
      | cons c rest1 =>
        rw [hsw] at hw
        simp only [hsw] at h
        by_cases hn : c = 'n'
        · subst hn
          rw [if_pos rfl] at h
          split at h
          · rename_i r
            simp only [Option.some.injEq, Prod.mk.injEq] at h
            obtain ⟨rfl, hr⟩ := h
            refine ⟨w ++ ['n', 'u', 'l', 'l'], ?_,
              Bal.append0 hwBal (Bal.plain_bal (by decide))⟩
            rw [← hr, hw]; simp
          · exact nomatch h
        · rw [if_neg hn] at h
          by_cases ht : c = 't'
          · subst ht
            rw [if_pos rfl] at h
            split at h
            · rename_i r
              simp only [Option.some.injEq, Prod.mk.injEq] at h
              obtain ⟨rfl, hr⟩ := h
              refine ⟨w ++ ['t', 'r', 'u', 'e'], ?_,
                Bal.append0 hwBal (Bal.plain_bal (by decide))⟩
              rw [← hr, hw]; simp
            · exact nomatch h
          · rw [if_neg ht] at h
            by_cases hf : c = 'f'
            · subst hf
              rw [if_pos rfl] at h
              split at h
              · rename_i r
                simp only [Option.some.injEq, Prod.mk.injEq] at h
                obtain ⟨rfl, hr⟩ := h
                refine ⟨w ++ ['f', 'a', 'l', 's', 'e'], ?_,
                  Bal.append0 hwBal (Bal.plain_bal (by decide))⟩
                rw [← hr, hw]; simp
              · exact nomatch h
            · rw [if_neg hf] at h
              by_cases hq : c = '"'
              · subst hq
                rw [if_pos rfl] at h
                cases hps : parseStringBody rest1 with
                | none => rw [hps] at h; exact nomatch h
                | some pr =>
                  obtain ⟨s, r⟩ := pr
                  rw [hps] at h
                  simp only [Option.some.injEq, Prod.mk.injEq] at h
                  obtain ⟨rfl, hr⟩ := h
                  obtain ⟨u', hdec, hscan⟩ := parseStringBody_sound rest1 s r hps
                  refine ⟨w ++ ('"' :: u'), ?_, ?_⟩
                  · rw [← hr, hw, hdec]; simp
                  · exact Bal.append0 hwBal (Bal.quoted_bal hscan)
              · rw [if_neg hq] at h
                by_cases hob : c = '{'
                · subst hob
                  rw [if_pos rfl] at h
                  obtain ⟨w2, hw2, hw2Bal⟩ := skipWs_sound rest1
                  split at h
                  · rename_i r2 heq
                    simp only [Option.some.injEq, Prod.mk.injEq] at h
                    obtain ⟨rfl, hr⟩ := h
                    rw [heq] at hw2
                    refine ⟨w ++ ('{' :: (w2 ++ ['}'])), ?_, ?_⟩
                    · rw [← hr, hw, hw2]; simp
                    · exact Bal.append0 hwBal
                        (Bal.cons_open0 (Or.inl rfl)
                          (Bal.append_left0 hw2Bal Bal.close_brace))
                  · cases hpm : parseMembers n (skipWs rest1) with
                    | none => rw [hpm] at h; exact nomatch h
                    | some pr =>
                      obtain ⟨f, r⟩ := pr
                      rw [hpm] at h
                      simp only [Option.some.injEq, Prod.mk.injEq] at h
                      obtain ⟨rfl, hr⟩ := h
                      obtain ⟨uM, hdecM, hMBal⟩ := ihM (skipWs rest1) f r hpm
                      refine ⟨w ++ ('{' :: (w2 ++ uM)), ?_, ?_⟩
                      · rw [← hr, hw, hw2, hdecM]; simp
                      · exact Bal.append0 hwBal
                          (Bal.cons_open0 (Or.inl rfl)
                            (Bal.append_left0 hw2Bal hMBal))
                · rw [if_neg hob] at h
                  by_cases hab : c = '['
                  · subst hab
                    rw [if_pos rfl] at h
                    obtain ⟨w2, hw2, hw2Bal⟩ := skipWs_sound rest1
                    split at h
                    · rename_i r2 heq
                      simp only [Option.some.injEq, Prod.mk.injEq] at h
                      obtain ⟨rfl, hr⟩ := h
                      rw [heq] at hw2
                      refine ⟨w ++ ('[' :: (w2 ++ [']'])), ?_, ?_⟩
                      · rw [← hr, hw, hw2]; simp
                      · exact Bal.append0 hwBal
                          (Bal.cons_open0 (Or.inr rfl)
                            (Bal.append_left0 hw2Bal Bal.close_bracket))
                    · cases hpe : parseElems n rest1 with
                      | none => rw [hpe] at h; exact nomatch h
                      | some pr =>
                        obtain ⟨es, r⟩ := pr
                        rw [hpe] at h
                        simp only [Option.some.injEq, Prod.mk.injEq] at h
                        obtain ⟨rfl, hr⟩ := h
                        obtain ⟨uE, hdecE, hEBal⟩ := ihE rest1 es r hpe
                        refine ⟨w ++ ('[' :: uE), ?_, ?_⟩
                        · rw [← hr, hw, hdecE]; simp
                        · exact Bal.append0 hwBal
                            (Bal.cons_open0 (Or.inr rfl) hEBal)
                  · rw [if_neg hab] at h
                    obtain ⟨u', hdec, hBal⟩ := parseNumber_sound (c :: rest1) j rest h
                    refine ⟨w ++ u', ?_, Bal.append0 hwBal hBal⟩
                    rw [hw, hdec]; simp
    · -- parseMembers
      intro cs f rest h
      rw [parseMembers_succ] at h
      split at h
      · rename_i rest1
        cases hps : parseStringBody rest1 with
        | none => rw [hps] at h; exact nomatch h
        | some pr =>
          obtain ⟨key, r1⟩ := pr
          rw [hps] at h
          obtain ⟨uS, hdecS, hscanS⟩ := parseStringBody_sound rest1 key r1 hps
          obtain ⟨w1, hw1, hw1Bal⟩ := skipWs_sound r1
          cases hsw1 : skipWs r1 with
          | nil => simp only [hsw1] at h; exact nomatch h
          | cons c2 r2' =>
            rw [hsw1] at hw1
            simp only [hsw1] at h
            split at h
            · rename_i r2 heq
              injection heq with hc2 hr2
              subst hc2
              subst hr2
              cases hpv : parseValue n r2' with
              | none => rw [hpv] at h; exact nomatch h
              | some pr2 =>
                obtain ⟨v, r3⟩ := pr2
                rw [hpv] at h
                obtain ⟨uV, hdecV, hVBal⟩ := ihV r2' v r3 hpv
                obtain ⟨w3, hw3, hw3Bal⟩ := skipWs_sound r3
                cases hsw3 : skipWs r3 with
                | nil => simp only [hsw3] at h; exact nomatch h
                | cons c4 r4' =>
                  rw [hsw3] at hw3
                  simp only [hsw3] at h
                  split at h
                  · rename_i r4 heq4
                    injection heq4 with hc4 hr4
                    subst hc4
                    subst hr4
                    cases hpm : parseMembers n (skipWs r4') with
                    | none => rw [hpm] at h; exact nomatch h
                    | some pr5 =>
                      obtain ⟨fs, r5⟩ := pr5
                      rw [hpm] at h
                      simp only [Option.some.injEq, Prod.mk.injEq] at h
                      obtain ⟨rfl, hr⟩ := h
                      obtain ⟨uM, hdecM, hMBal⟩ := ihM (skipWs r4') fs r5 hpm
                      obtain ⟨w4, hw4, hw4Bal⟩ := skipWs_sound r4'
                      refine ⟨'"' :: (uS ++ (w1 ++ (':' ::
                        (uV ++ (w3 ++ (',' :: (w4 ++ uM))))))), ?_, ?_⟩
                      · rw [← hr, hdecS, hw1, hdecV, hw3, hw4, hdecM]; simp
                      · exact Bal.quoted_append hscanS
                          (Bal.append_left0 hw1Bal
                            (Bal.cons_plain (by decide)
                              (Bal.append_left0 hVBal
                                (Bal.append_left0 hw3Bal
                                  (Bal.cons_plain (by decide)
                                    (Bal.append_left0 hw4Bal hMBal))))))
                  · rename_i r4 heq4
                    injection heq4 with hc4 hr4
                    subst hc4
                    subst hr4
                    simp only [Option.some.injEq, Prod.mk.injEq] at h
                    obtain ⟨rfl, hr⟩ := h
                    refine ⟨'"' :: (uS ++ (w1 ++ (':' ::
                      (uV ++ (w3 ++ ['}']))))), ?_, ?_⟩
                    · rw [← hr, hdecS, hw1, hdecV, hw3]; simp
                    · exact Bal.quoted_append hscanS
                        (Bal.append_left0 hw1Bal
                          (Bal.cons_plain (by decide)
                            (Bal.append_left0 hVBal
                              (Bal.append_left0 hw3Bal Bal.close_brace))))
                  · exact nomatch h
            · exact nomatch h
      · exact nomatch h
    · -- parseElems
      intro cs es rest h
      rw [parseElems_succ] at h
      cases hpv : parseValue n cs with
      | none => rw [hpv] at h; exact nomatch h
      | some pr =>
        obtain ⟨v, r1⟩ := pr
        rw [hpv] at h
        obtain ⟨uV, hdecV, hVBal⟩ := ihV cs v r1 hpv
        obtain ⟨w1, hw1, hw1Bal⟩ := skipWs_sound r1
        cases hsw1 : skipWs r1 with
        | nil => simp only [hsw1] at h; exact nomatch h
        | cons c2 r2' =>
          rw [hsw1] at hw1
          simp only [hsw1] at h
          split at h
          · rename_i r2 heq
            injection heq with hc2 hr2
            subst hc2
            subst hr2
            cases hpe : parseElems n r2' with
            | none => rw [hpe] at h; exact nomatch h
            | some pr3 =>
              obtain ⟨es3, r3⟩ := pr3
              rw [hpe] at h
              simp only [Option.some.injEq, Prod.mk.injEq] at h
              obtain ⟨rfl, hr⟩ := h
              obtain ⟨uE, hdecE, hEBal⟩ := ihE r2' es3 r3 hpe
              refine ⟨uV ++ (w1 ++ (',' :: uE)), ?_, ?_⟩
              · rw [← hr, hdecV, hw1, hdecE]; simp
              · exact Bal.append_left0 hVBal
                  (Bal.append_left0 hw1Bal (Bal.cons_plain (by decide) hEBal))
          · rename_i r2 heq
            injection heq with hc2 hr2
            subst hc2
            subst hr2
            simp only [Option.some.injEq, Prod.mk.injEq] at h
            obtain ⟨rfl, hr⟩ := h
            refine ⟨uV ++ (w1 ++ [']']), ?_, ?_⟩
            · rw [← hr, hdecV, hw1]; simp
            · exact Bal.append_left0 hVBal
                (Bal.append_left0 hw1Bal Bal.close_bracket)
          · exact nomatch h

/-! ### Depth floor of scanned prefixes -/

theorem scanLow_le (st : ScanSt) (l : List Char) : scanLow st l ≤ st.depth := by
  cases l with
  | nil => simp [scanLow]
  | cons c rest => simp [scanLow]

theorem scanLow_append (st : ScanSt) (u v : List Char) :
    scanLow st (u ++ v) = min (scanLow st u) (scanLow (scan st u) v) := by
  induction u generalizing st with
  | nil =>
    simp only [List.nil_append, scanLow, scan_nil]
    have := scanLow_le st v
    omega
  | cons c t ih =>
    have h1 : scanLow st ((c :: t) ++ v) =
        min st.depth (scanLow (scanChar st c) (t ++ v)) := rfl
    have h2 : scanLow st (c :: t) = min st.depth (scanLow (scanChar st c) t) := rfl
    have h3 : scan st (c :: t) = scan (scanChar st c) t := rfl
    rw [h1, h2, h3, ih (scanChar st c)]
    omega

theorem scan_depth_ge_low (st : ScanSt) (u : List Char) :
    (scan st u).depth ≥ scanLow st u := by
  induction u generalizing st with
  | nil => simp [scan_nil, scanLow]
  | cons c t ih =>
    simp only [scan_cons, scanLow]
    have := ih (scanChar st c)
    omega

theorem scan_prefix_floor (st : ScanSt) {l u v : List Char} (hdec : l = u ++ v) :
    (scan st u).depth ≥ scanLow st l := by
  rw [hdec, scanLow_append]
  have := scan_depth_ge_low st u
  omega

theorem Neutral.nil_neutral : Neutral [] :=
  ⟨fun _ => rfl, fun d => by simp [scanLow]⟩

theorem Neutral.append_neutral {u v : List Char} (hu : Neutral u) (hv : Neutral v) :
    Neutral (u ++ v) := by
  refine ⟨fun d => ?_, fun d => ?_⟩
  · rw [scan_append, hu.1 d, hv.1 d]
  · rw [scanLow_append, hu.1 d]
    have h1 := hu.2 d
    have h2 := hv.2 d
    omega

theorem NeutralStr.nil_nstr : NeutralStr [] :=
  ⟨fun _ => rfl, fun d => by simp [scanLow]⟩

theorem NeutralStr.append_nstr {u v : List Char} (hu : NeutralStr u) (hv : NeutralStr v) :
    NeutralStr (u ++ v) := by
  refine ⟨fun d => ?_, fun d => ?_⟩
  · rw [scan_append, hu.1 d, hv.1 d]
  · rw [scanLow_append, hu.1 d]
    have h1 := hu.2 d
    have h2 := hv.2 d
    omega

theorem Neutral.plain_neutral {u : List Char} (h : ∀ c ∈ u, plainChar c = true) :
    Neutral u := by
  induction u with
  | nil => exact Neutral.nil_neutral
  | cons c t ih =>
    have hc := h c (by simp)
    have ht := ih (fun x hx => h x (by simp [hx]))
    refine ⟨fun d => ?_, fun d => ?_⟩
    · rw [scan_cons, scanChar_plain hc d, ht.1 d]
    · simp only [scanLow, scanChar_plain hc d]
      have := ht.2 d
      omega

/-- In-string characters that are neither a quote nor a backslash. -/
theorem NeutralStr.plain_nstr {u : List Char}
    (h : ∀ c ∈ u, ¬c = '"' ∧ ¬c = '\\') : NeutralStr u := by
  induction u with
  | nil => exact NeutralStr.nil_nstr
  | cons c t ih =>
    obtain ⟨h1, h2⟩ := h c (by simp)
    have hstep : ∀ d : Int, scanChar ⟨d, true, false⟩ c = ⟨d, true, false⟩ := by
      intro d; simp [scanChar, h1, h2]
    have ht := ih (fun x hx => h x (by simp [hx]))
    refine ⟨fun d => ?_, fun d => ?_⟩
    · rw [scan_cons, hstep d, ht.1 d]
    · simp only [scanLow, hstep d]
      have := ht.2 d
      omega

/-- A two-character escape sequence inside a string. -/
theorem NeutralStr.escapePair (e : Char) : NeutralStr ['\\', e] := by
  have h1 : ∀ d : Int, scanChar ⟨d, true, false⟩ '\\' = ⟨d, true, true⟩ := by
    intro d; simp [scanChar]
  have h2 : ∀ d : Int, scanChar ⟨d, true, true⟩ e = ⟨d, true, false⟩ := by
    intro d; simp [scanChar]
  refine ⟨fun d => ?_, fun d => ?_⟩
  · rw [scan_cons, h1 d, scan_cons, h2 d, scan_nil]
  · simp [scanLow, h1 d, h2 d]

theorem Neutral.quoted_neutral {u : List Char} (h : NeutralStr u) :
    Neutral ('"' :: u ++ ['"']) := by
  have hq1 : ∀ d : Int, scanChar ⟨d, false, false⟩ '"' = ⟨d, true, false⟩ := by
    intro d; simp [scanChar]
  have hq2 : ∀ d : Int, scanChar ⟨d, true, false⟩ '"' = ⟨d, false, false⟩ := by
    intro d; simp [scanChar]
  refine ⟨fun d => ?_, fun d => ?_⟩
  · rw [List.cons_append, scan_cons, hq1 d, scan_append, h.1 d, scan_cons, hq2 d,
      scan_nil]
  · rw [List.cons_append]
    simp only [scanLow, hq1 d]
    rw [scanLow_append, h.1 d]
    simp only [scanLow, hq2 d]
    have := h.2 d
    omega

/-- Wrapping a neutral body in braces or brackets is neutral. -/
theorem Neutral.wrap {inner : List Char} {o c : Char}
    (hoc : (o = '{' ∧ c = '}') ∨ (o = '[' ∧ c = ']'))
    (h : Neutral inner) : Neutral (o :: inner ++ [c]) := by
  have ho : ∀ d : Int, scanChar ⟨d, false, false⟩ o = ⟨d + 1, false, false⟩ := by
    intro d; rcases hoc with ⟨rfl, _⟩ | ⟨rfl, _⟩ <;> simp [scanChar]
  have hc : ∀ d : Int, scanChar ⟨d, false, false⟩ c = ⟨d - 1, false, false⟩ := by
    intro d; rcases hoc with ⟨_, rfl⟩ | ⟨_, rfl⟩ <;> simp [scanChar]
  refine ⟨fun d => ?_, fun d => ?_⟩
  · rw [List.cons_append, scan_cons, ho d, scan_append, h.1 (d + 1), scan_cons,
      hc (d + 1), scan_nil]
    congr 1
    omega
  · rw [List.cons_append]
    simp only [scanLow, ho d]
    rw [scanLow_append, h.1 (d + 1)]
    simp only [scanLow, hc (d + 1)]
    have := h.2 (d + 1)
    omega

/-! ### Neutrality of the serializer output -/

theorem hexDigitChar_props (n : Nat) :
    ¬hexDigitChar n = '"' ∧ ¬hexDigitChar n = '\\' := by
  have hall : ∀ x ∈ "0123456789abcdef".data, ¬x = '"' ∧ ¬x = '\\' := by decide
  unfold hexDigitChar
  rcases lt_or_ge n ("0123456789abcdef".data.length) with h | h
  · rw [List.getD_eq_getElem _ _ h]
    exact hall _ (List.getElem_mem h)
  · rw [List.getD_eq_default _ _ h]
    decide

theorem neutralStr_escapeChar (c : Char) : NeutralStr (escapeJsonChar c) := by
  unfold escapeJsonChar
  split_ifs with h1 h2 h3 h4 h5 h6 h7 h8
  · exact NeutralStr.escapePair _
  · exact NeutralStr.escapePair _
  · exact NeutralStr.escapePair _
  · exact NeutralStr.escapePair _
  · exact NeutralStr.escapePair _
  · exact NeutralStr.escapePair _
  · exact NeutralStr.escapePair _
  · have : (['\\', 'u', '0', '0', hexDigitChar (c.toNat / 16),
        hexDigitChar (c.toNat % 16)] : List Char) =
        ['\\', 'u'] ++ ['0', '0', hexDigitChar (c.toNat / 16),
          hexDigitChar (c.toNat % 16)] := rfl
    rw [this]
    refine NeutralStr.append_nstr (NeutralStr.escapePair _) (NeutralStr.plain_nstr ?_)
    intro x hx
    simp only [List.mem_cons, List.not_mem_nil, or_false] at hx
    rcases hx with rfl | rfl | rfl | rfl
    · decide
    · decide
    · exact hexDigitChar_props _
    · exact hexDigitChar_props _
  · refine NeutralStr.plain_nstr ?_
    intro x hx
    simp only [List.mem_singleton] at hx
    subst hx
    exact ⟨h1, h2⟩

theorem neutralStr_escapeJson (l : List Char) : NeutralStr (escapeJson l) := by
  induction l with
  | nil => exact NeutralStr.nil_nstr
  | cons c t ih => exact NeutralStr.append_nstr (neutralStr_escapeChar c) ih

theorem neutral_jstr (s : String) : Neutral (jstr s) :=
  Neutral.quoted_neutral (neutralStr_escapeJson s.data)

theorem neutral_jkey (name : String)
    (h : ∀ c ∈ name.data, ¬c = '"' ∧ ¬c = '\\') : Neutral (jkey name) := by
  have hre : jkey name = ('"' :: name.data ++ ['"']) ++ [':', ' '] := by
    simp [jkey]
  rw [hre]
  exact Neutral.append_neutral (Neutral.quoted_neutral (NeutralStr.plain_nstr h))
    (Neutral.plain_neutral (by decide))

theorem natDigitsAux_plain :
    ∀ (fuel n : Nat), ∀ c ∈ natDigitsAux fuel n, plainChar c = true
  | 0, n => by simp [natDigitsAux]
  | fuel + 1, n => by
    intro c hc
    by_cases h : n < 10
    · simp only [natDigitsAux, if_pos h, List.mem_singleton] at hc
      subst hc
      interval_cases n <;> decide
    · simp only [natDigitsAux, if_neg h, List.mem_append,
        List.mem_singleton] at hc
      rcases hc with hc | hc
      · exact natDigitsAux_plain fuel (n / 10) c hc
      · subst hc
        have h10 : n % 10 < 10 := Nat.mod_lt _ (by omega)
        set m := n % 10 with hm
        interval_cases m <;> decide

theorem neutral_intChars (n : Int) : Neutral (intChars n) := by
  unfold intChars
  split_ifs with h
  · refine Neutral.plain_neutral ?_
    intro c hc
    simp only [List.mem_cons] at hc
    rcases hc with rfl | hc
    · decide
    · exact natDigitsAux_plain _ _ c hc
  · exact Neutral.plain_neutral (fun c hc => natDigitsAux_plain _ _ c hc)

/-! ### No proper prefix of a rendered top-level object parses -/

theorem parseJson_open_prefix_none (inner u0 v : List Char) (hN : Neutral inner)
    (hdec : inner = u0 ++ v) : parseJson ('{' :: u0) = none := by
  cases hp : parseJson ('{' :: u0) with
  | none => rfl
  | some j =>
    exfalso
    unfold parseJson at hp
    cases hpv : parseValue (('{' :: u0).length + 1) ('{' :: u0) with
    | none => simp only [hpv] at hp; exact nomatch hp
    | some pr =>
      obtain ⟨j', rest⟩ := pr
      simp only [hpv] at hp
      by_cases hws : skipWs rest = []
      · obtain ⟨u, hudec, hu⟩ := (parsers_sound _).1 _ j' rest hpv
        obtain ⟨w, hwdec, hwBal⟩ := skipWs_sound rest
        rw [hws, List.append_nil] at hwdec
        have hscan0 : scan ⟨0, false, false⟩ ('{' :: u0) = ⟨0, false, false⟩ := by
          rw [hudec, scan_append]
          have h1 : scan ⟨0, false, false⟩ u = ⟨0, false, false⟩ := by
            have := hu 0; simpa using this
          rw [h1]
          have h2 : Bal rest 0 := by rw [hwdec]; exact hwBal
          have := h2 0; simpa using this
        have hfloor : (scan ⟨1, false, false⟩ u0).depth ≥ 1 := by
          have hf := scan_prefix_floor ⟨1, false, false⟩ hdec
          have h2 := hN.2 1
          omega
        have hopen : scan ⟨0, false, false⟩ ('{' :: u0) =
            scan ⟨1, false, false⟩ u0 := by
          rw [scan_cons]
          rfl
        rw [hopen] at hscan0
        rw [hscan0] at hfloor
        simp at hfloor
      · rw [if_neg hws] at hp; exact nomatch hp

theorem parseJson_prefix_none (inner : List Char) (hN : Neutral inner)
    (k : Nat) (hk : k < ('{' :: inner ++ ['}']).length) :
    parseJson (('{' :: inner ++ ['}']).take k) = none := by
  match k with
  | 0 => rfl
  | k' + 1 =>
    have hlen : k' ≤ inner.length := by
      simp at hk
      omega
    have htake : ('{' :: inner ++ ['}']).take (k' + 1) =
        '{' :: (inner ++ ['}']).take k' := rfl
    have htake2 : (inner ++ ['}']).take k' = inner.take k' := by
      rw [List.take_append_eq_append_take, Nat.sub_eq_zero_of_le hlen]
      simp
    rw [htake, htake2]
    exact parseJson_open_prefix_none inner (inner.take k') (inner.drop k') hN
      (List.take_append_drop k' inner).symm

/-- The token file body between the braces is a neutral segment. -/
theorem neutral_tokenInner (t : Token) : Neutral (tokenInner t) := by
  unfold tokenInner
  have hk1 := neutral_jkey "access_token" (by decide)
  have hk2 := neutral_jkey "refresh_token" (by decide)
  have hk3 := neutral_jkey "expires_at" (by decide)
  have hws : Neutral ("\n  ".data) := Neutral.plain_neutral (by decide)
  have hsep : Neutral (",\n  ".data) := Neutral.plain_neutral (by decide)
  have hnl : Neutral (['\n'] : List Char) := Neutral.plain_neutral (by decide)
  have hnull : Neutral ("null".data) := Neutral.plain_neutral (by decide)
  have hrt : Neutral (match t.refresh_token with
      | some r => jstr r
      | none => "null".data) := by
    cases t.refresh_token with
    | none => exact hnull
    | some r => exact neutral_jstr r
  have hexp : Neutral (match t.expires_at with
      | some n => intChars n
      | none => "null".data) := by
    cases t.expires_at with
    | none => exact hnull
    | some n => exact neutral_intChars n
  exact ((((((((hws.append_neutral hk1).append_neutral (neutral_jstr _)).append_neutral hsep).append_neutral
    hk2).append_neutral hrt).append_neutral hsep).append_neutral hk3).append_neutral hexp).append_neutral hnl

/-- A serialized boolean is a neutral segment. -/
theorem neutral_boolChars (b : Bool) :
    Neutral (if b then "true".data else "false".data) := by
  cases b <;> exact Neutral.plain_neutral (by decide)

/-- A serialized event object is a neutral segment. -/
theorem neutral_serializeEvent (e : Event) : Neutral (serializeEvent e) := by
  unfold serializeEvent
  refine Neutral.wrap (Or.inl ⟨rfl, rfl⟩) ?_
  have hws : Neutral ("\n      ".data) := Neutral.plain_neutral (by decide)
  have hsep : Neutral (",\n      ".data) := Neutral.plain_neutral (by decide)
  have hend : Neutral ("\n    ".data) := Neutral.plain_neutral (by decide)
  exact ((((((((((((((((((((((hws.append_neutral
    (neutral_jkey "id" (by decide))).append_neutral (neutral_jstr _)).append_neutral
    hsep).append_neutral (neutral_jkey "title" (by decide))).append_neutral
    (neutral_jstr _)).append_neutral hsep).append_neutral
    (neutral_jkey "date" (by decide))).append_neutral (neutral_jstr _)).append_neutral
    hsep).append_neutral (neutral_jkey "time" (by decide))).append_neutral
    (neutral_jstr _)).append_neutral hsep).append_neutral
    (neutral_jkey "time_range" (by decide))).append_neutral
    (neutral_jstr _)).append_neutral hsep).append_neutral
    (neutral_jkey "date_formatted" (by decide))).append_neutral
    (neutral_jstr _)).append_neutral hsep).append_neutral
    (neutral_jkey "color" (by decide))).append_neutral
    (neutral_jstr _)).append_neutral hsep).append_neutral
    (neutral_jkey "calendar" (by decide))).append_neutral (neutral_jstr _)
    |>.append_neutral hsep |>.append_neutral (neutral_jkey "location" (by decide))
    |>.append_neutral (neutral_jstr _) |>.append_neutral hsep
    |>.append_neutral (neutral_jkey "description" (by decide))
    |>.append_neutral (neutral_jstr _) |>.append_neutral hsep
    |>.append_neutral (neutral_jkey "is_all_day" (by decide))
    |>.append_neutral (neutral_boolChars _) |>.append_neutral hend

/-- A serialized task object is a neutral segment. -/
theorem neutral_serializeTask (t : Task) : Neutral (serializeTask t) := by
  unfold serializeTask
  refine Neutral.wrap (Or.inl ⟨rfl, rfl⟩) ?_
  have hws : Neutral ("\n      ".data) := Neutral.plain_neutral (by decide)
  have hsep : Neutral (",\n      ".data) := Neutral.plain_neutral (by decide)
  have hend : Neutral ("\n    ".data) := Neutral.plain_neutral (by decide)
  exact hws.append_neutral (neutral_jkey "id" (by decide))
    |>.append_neutral (neutral_jstr _) |>.append_neutral hsep
    |>.append_neutral (neutral_jkey "title" (by decide))
    |>.append_neutral (neutral_jstr _) |>.append_neutral hsep
    |>.append_neutral (neutral_jkey "completed" (by decide))
    |>.append_neutral (neutral_boolChars _) |>.append_neutral hsep
    |>.append_neutral (neutral_jkey "tasklist_id" (by decide))
    |>.append_neutral (neutral_jstr _) |>.append_neutral hend

/-- Joined array elements form a neutral segment. -/
theorem neutral_joinIndent :
    ∀ items : List (List Char), (∀ x ∈ items, Neutral x) →
      Neutral (joinIndent items)
  | [] => fun _ => Neutral.nil_neutral
  | [x] => fun h => h x (by simp)
  | x :: y :: rest => fun h => by
    have ih := neutral_joinIndent (y :: rest)
      (fun z hz => h z (List.mem_cons_of_mem x hz))
    exact ((h x (by simp)).append_neutral (Neutral.plain_neutral (by decide))).append_neutral ih

/-- A serialized array is a neutral segment. -/
theorem neutral_serializeArray (items : List (List Char))
    (h : ∀ x ∈ items, Neutral x) : Neutral (serializeArray items) := by
  unfold serializeArray
  match items with
  | [] => exact Neutral.wrap (Or.inr ⟨rfl, rfl⟩) Neutral.nil_neutral
  | x :: rest =>
    refine Neutral.wrap (Or.inr ⟨rfl, rfl⟩) ?_
    exact ((Neutral.plain_neutral (by decide)).append_neutral (neutral_joinIndent _ h)).append_neutral
      (Neutral.plain_neutral (by decide))

/-- The cache file body between the braces is a neutral segment. -/
theorem neutral_cacheInner (d : CachedData) : Neutral (cacheInner d) := by
  unfold cacheInner
  have hws : Neutral ("\n  ".data) := Neutral.plain_neutral (by decide)
  have hsep : Neutral (",\n  ".data) := Neutral.plain_neutral (by decide)
  have hnl : Neutral (['\n'] : List Char) := Neutral.plain_neutral (by decide)
  have hev : Neutral (serializeArray (d.events.map serializeEvent)) := by
    refine neutral_serializeArray _ ?_
    intro x hx
    obtain ⟨e, _, rfl⟩ := List.mem_map.mp hx
    exact neutral_serializeEvent e
  have hta : Neutral (serializeArray (d.tasks.map serializeTask)) := by
    refine neutral_serializeArray _ ?_
    intro x hx
    obtain ⟨t, _, rfl⟩ := List.mem_map.mp hx
    exact neutral_serializeTask t
  exact hws.append_neutral (neutral_jkey "events" (by decide))
    |>.append_neutral hev |>.append_neutral hsep
    |>.append_neutral (neutral_jkey "tasks" (by decide))
    |>.append_neutral hta |>.append_neutral hnl

/-- The serializer model round-trips on a concrete token file: the full
file is valid JSON. -/
theorem serializeToken_parses :
    (parseJson (serializeToken exTokenFile)).isSome = true := rfl

set_option maxRecDepth 10000 in
/-- The full cache file is valid JSON. -/
theorem serializeCachedData_parses :
    (parseJson (serializeCachedData exCacheFile)).isSome = true := rfl

/-- C9: interrupting a write of the token file or the snapshot cache file
leaves a strict prefix of the serialized JSON on disk, and no such prefix
parses as valid JSON — the next load rejects it, so a write is observed
either complete or not at all. -/
theorem atomic_persistence_model (t : Token) (d : CachedData) (k m : Nat)
    (hk : k < (serializeToken t).length)
    (hm : m < (serializeCachedData d).length) :
    parseJson ((serializeToken t).take k) = none ∧
    parseJson ((serializeCachedData d).take m) = none :=
  ⟨parseJson_prefix_none (tokenInner t) (neutral_tokenInner t) k hk,
   parseJson_prefix_none (cacheInner d) (neutral_cacheInner d) m hm⟩

set_option maxRecDepth 10000 in
/-- Witness for C9: concrete truncation points of the two concrete files
are rejected. -/
theorem atomic_persistence_model_witness :
    parseJson ((serializeToken exTokenFile).take 17) = none ∧
    parseJson ((serializeCachedData exCacheFile).take 25) = none :=
  atomic_persistence_model exTokenFile exCacheFile 17 25 (by decide) (by decide)

end CalWid
